import Mathlib

/-!
Verification development for the Dupligänger / SuperDeDuper deduplication
engine.  The definitions below are shallow embeddings of the Python sources
under `src/dupliganger/` and `src/superdeduper/`:

* `parse_cigar`, `to_location_key_with_5p_trimming`  — `dupliganger/sam.py`
  (the `superdeduper/sam.py` copies of these two functions are identical);
* the ingestion pipeline                              — `dupliganger/build_read_and_loc_dbs.py`;
* the storage backends and `LocationBucketDb`         — `dupliganger/db.py`;
* the resolution and reconciliation functions         — `superdeduper/dedup.py`;
* the constants                                       — `dupliganger/constants.py`.

Python strings are modelled as `List Char` (`PyStr`); Python `int` as `Int`;
fallible code returns `Except PyErr`.  Python `int(s)` is modelled for the
inputs that arise here: an optional minus sign followed by a nonempty run of
ASCII digits (other accepted Python spellings such as surrounding whitespace
or underscores do not occur in SAM data).
-/

/-- Exceptions raised by the embedded Python code. -/
inductive PyErr where
  /-- HardClippingNotSupportedException (dupliganger/exceptions.py). -/
  | hardClip
  /-- Python ValueError (failed int() conversion, failed tuple unpacking). -/
  | valueError
  /-- Python TypeError (unhashable type, unorderable types, unsubscriptable). -/
  | typeError
  /-- Python IndexError (sequence index out of range). -/
  | indexError
  /-- Python KeyError (missing dict key). -/
  | keyError
  /-- Python AttributeError (missing attribute). -/
  | attributeError
  /-- CannotContinueException (dupliganger/exceptions.py). -/
  | cannotContinue
  deriving DecidableEq, Repr

/-- A Python string, modelled as its list of characters. -/
abbrev PyStr := List Char

/-- Decimal digit character for a value below ten. -/
def digitChar : Nat → Char
  | 0 => '0'
  | 1 => '1'
  | 2 => '2'
  | 3 => '3'
  | 4 => '4'
  | 5 => '5'
  | 6 => '6'
  | 7 => '7'
  | 8 => '8'
  | _ => '9'

/-- Worker for `natDigits`, with enough fuel to structurally recurse. -/
def natDigitsAux : Nat → Nat → List Char → List Char
  | 0, _, acc => acc
  | fuel + 1, n, acc =>
      if n < 10 then digitChar n :: acc
      else natDigitsAux fuel (n / 10) (digitChar (n % 10) :: acc)

/-- Decimal digits of a natural number, most significant first. -/
def natDigits (n : Nat) : List Char := natDigitsAux (n + 1) n []

/-- Recursion-friendly reference form of `natDigits`. -/
def digitsSpec (n : Nat) : List Char :=
  if h : n < 10 then [digitChar n]
  else digitsSpec (n / 10) ++ [digitChar (n % 10)]
  termination_by n
  decreasing_by exact Nat.div_lt_self (by omega) (by omega)

theorem natDigitsAux_eq_digitsSpec : ∀ (fuel n : Nat) (acc : List Char), n < fuel →
    natDigitsAux fuel n acc = digitsSpec n ++ acc := by
  intro fuel
  induction fuel with
  | zero => omega
  | succ fuel ih =>
    intro n acc hn
    by_cases h10 : n < 10
    · simp only [natDigitsAux, h10, if_true]
      unfold digitsSpec
      simp [h10]
    · simp only [natDigitsAux, h10, if_false]
      have hdiv : n / 10 < fuel := by
        have h1 : n / 10 < n := Nat.div_lt_self (by omega) (by omega)
        omega
      rw [ih (n / 10) (digitChar (n % 10) :: acc) hdiv]
      conv_rhs => rw [digitsSpec]
      simp [h10]

theorem natDigits_eq_digitsSpec (n : Nat) : natDigits n = digitsSpec n := by
  rw [natDigits, natDigitsAux_eq_digitsSpec (n + 1) n [] (by omega), List.append_nil]

/-- Numeric value of a digit string (as read left to right). -/
def digitsVal (cs : List Char) : Nat :=
  cs.foldl (fun a c => 10 * a + (c.toNat - 48)) 0

/-- The Python `int(s)` conversion, for an optional minus sign followed by a
nonempty run of ASCII digits; anything else raises ValueError. -/
def pyInt (cs : PyStr) : Except PyErr Int :=
  match cs with
  | [] => .error .valueError
  | c :: rest =>
      if c = '-' then
        if rest.isEmpty then .error .valueError
        else if rest.all Char.isDigit then .ok (-(digitsVal rest : Int))
        else .error .valueError
      else
        if (c :: rest).all Char.isDigit then .ok (digitsVal (c :: rest))
        else .error .valueError

/-- The Python decimal rendering `str(i)` of an integer. -/
def pyStrOfInt (i : Int) : PyStr :=
  if i < 0 then '-' :: natDigits (-i).toNat else natDigits i.toNat

theorem digitChar_isDigit {d : Nat} (h : d < 10) : (digitChar d).isDigit = true := by
  interval_cases d <;> decide

theorem digitChar_toNat {d : Nat} (h : d < 10) : (digitChar d).toNat = 48 + d := by
  interval_cases d <;> decide

theorem digitsVal_append (xs ys : List Char) :
    digitsVal (xs ++ ys) = ys.foldl (fun a c => 10 * a + (c.toNat - 48)) (digitsVal xs) := by
  simp [digitsVal, List.foldl_append]

theorem digitsSpec_ne_nil (n : Nat) : digitsSpec n ≠ [] := by
  unfold digitsSpec
  split
  · simp
  · simp

theorem natDigits_ne_nil (n : Nat) : natDigits n ≠ [] := by
  rw [natDigits_eq_digitsSpec]
  exact digitsSpec_ne_nil n

theorem digitsSpec_all_digits (n : Nat) : (digitsSpec n).all Char.isDigit = true := by
  induction n using Nat.strong_induction_on with
  | _ n ih =>
    unfold digitsSpec
    split
    · simp [digitChar_isDigit ‹n < 10›]
    · rename_i h
      rw [List.all_append]
      have h1 := ih (n / 10) (Nat.div_lt_self (by omega) (by omega))
      have h2 : (n % 10) < 10 := Nat.mod_lt n (by omega)
      simp [h1, digitChar_isDigit h2]

theorem natDigits_all_digits (n : Nat) : (natDigits n).all Char.isDigit = true := by
  rw [natDigits_eq_digitsSpec]
  exact digitsSpec_all_digits n

theorem digitsVal_digitsSpec (n : Nat) : digitsVal (digitsSpec n) = n := by
  induction n using Nat.strong_induction_on with
  | _ n ih =>
    unfold digitsSpec
    split
    · rename_i h
      simp [digitsVal, List.foldl, digitChar_toNat h]
    · rename_i h
      rw [digitsVal_append, ih (n / 10) (Nat.div_lt_self (by omega) (by omega))]
      have h2 : (n % 10) < 10 := Nat.mod_lt n (by omega)
      simp only [List.foldl, digitChar_toNat h2]
      omega

theorem digitsVal_natDigits (n : Nat) : digitsVal (natDigits n) = n := by
  rw [natDigits_eq_digitsSpec]
  exact digitsVal_digitsSpec n

theorem pyInt_natDigits (n : Nat) : pyInt (natDigits n) = .ok (n : Int) := by
  have hne := natDigits_ne_nil n
  have hall := natDigits_all_digits n
  have hval := digitsVal_natDigits n
  cases hd : natDigits n with
  | nil => exact absurd hd hne
  | cons c rest =>
    rw [hd] at hall hval
    have hcd : c.isDigit = true := by
      simp [List.all_cons] at hall
      exact hall.1
    have hcne : ¬ (c = '-') := by
      intro hc
      rw [hc] at hcd
      exact absurd hcd (by decide)
    simp [pyInt, hcne, hall, hval]

/-- The Python `str.rstrip()` whitespace set. -/
def pyIsSpace (c : Char) : Bool :=
  c = ' ' || c = '\t' || c = '\n' || c = '\r' || c = '\x0b' || c = '\x0c'

/-- The Python `str.rstrip()` (no argument). -/
def pyRstrip (s : PyStr) : PyStr :=
  (s.reverse.dropWhile pyIsSpace).reverse

/-- Worker for `pySplit`. -/
def pySplitAux (sep : Char) : List Char → List Char → List PyStr
  | [], acc => [acc.reverse]
  | c :: rest, acc =>
      if c = sep then acc.reverse :: pySplitAux sep rest []
      else pySplitAux sep rest (c :: acc)

/-- The Python `s.split(sep)` for a one-character separator. -/
def pySplit (sep : Char) (s : PyStr) : List PyStr := pySplitAux sep s []

/-- Worker for `pySplitMax`. -/
def pySplitMaxAux (sep : Char) : Nat → List Char → List Char → List PyStr
  | _, [], acc => [acc.reverse]
  | 0, rest, acc => [acc.reverse ++ rest]
  | m + 1, c :: rest, acc =>
      if c = sep then acc.reverse :: pySplitMaxAux sep m rest []
      else pySplitMaxAux sep (m + 1) rest (c :: acc)

/-- The Python `s.split(sep, maxsplit)` for a one-character separator. -/
def pySplitMax (sep : Char) (maxsplit : Nat) (s : PyStr) : List PyStr :=
  pySplitMaxAux sep maxsplit s []

/-- The Python `sep.join(xs)`. -/
def pyJoin (sep : PyStr) (xs : List PyStr) : PyStr :=
  (xs.intersperse sep).flatten

/-- Python list indexing `xs[i]` for a nonnegative index (IndexError when out
of range). -/
def pyIndex {α : Type} (xs : List α) (i : Nat) : Except PyErr α :=
  match xs[i]? with
  | some x => .ok x
  | none => .error .indexError

/-! ## CIGAR parsing (`parse_cigar`, dupliganger/sam.py lines 82-150) -/

/-- The Python membership test `c in 'MIDNSP=X'`. -/
def isCigarOp (c : Char) : Bool :=
  c = 'M' || c = 'I' || c = 'D' || c = 'N' || c = 'S' || c = 'P' || c = '=' || c = 'X'

/-- The Python membership test `c in 'M=XDN'` (reference-consuming operators). -/
def isRefOp (c : Char) : Bool :=
  c = 'M' || c = '=' || c = 'X' || c = 'D' || c = 'N'

/-- Value of the Python local `clipped_left`, which holds None, then possibly
False, then possibly an int. -/
inductive ClippedLeft where
  | pynone
  | pyfalse
  | intval (n : Int)
  deriving DecidableEq, Repr

/-- State of the scan loop in `parse_cigar`: locals `clipped_left`,
`clipped_right`, `num` and `align_len` of dupliganger/sam.py lines 97-100. -/
structure CigarSt where
  clipped_left : ClippedLeft
  clipped_right : Int
  num : List Char
  align_len : Int
  deriving DecidableEq, Repr

/-- One iteration of the `for c in cigar` loop of `parse_cigar`
(dupliganger/sam.py lines 102-134). -/
def parse_cigar_step (st : CigarSt) (c : Char) : Except PyErr CigarSt :=
  if c = 'H' then .error .hardClip
  else if isCigarOp c then
    match
      (if c = 'S' then
        (pyInt st.num).map (fun n =>
          match st.clipped_left with
          | .pynone => { st with clipped_left := .intval n }
          | _ => { st with clipped_right := n })
      else if isRefOp c then
        (pyInt st.num).map (fun n => { st with align_len := st.align_len + n })
      else
        -- c is I or P: consumed, contributes nothing
        .ok st)
    with
    | .error e => .error e
    | .ok st1 =>
      let st2 := { st1 with num := [] }
      .ok (if st2.clipped_left = .pynone then { st2 with clipped_left := .pyfalse } else st2)
  else .ok { st with num := st.num ++ [c] }

/-- The `for c in cigar` loop of `parse_cigar`. -/
def parse_cigar_loop : List Char → CigarSt → Except PyErr CigarSt
  | [], st => .ok st
  | c :: rest, st =>
      match parse_cigar_step st c with
      | .error e => .error e
      | .ok st1 => parse_cigar_loop rest st1

/-- `parse_cigar(left, strand, cigar)` of dupliganger/sam.py lines 82-150
(identical in superdeduper/sam.py lines 74-142).  Returns the 4-tuple
`(synthetic_start, start, end, synthetic_end)`. -/
def parse_cigar (left : Int) (strand : PyStr) (cigar : PyStr) :
    Except PyErr (Int × Int × Int × Int) :=
  match parse_cigar_loop cigar ⟨.pynone, 0, [], 0⟩ with
  | .error e => .error e
  | .ok st =>
    let clipped_left : Int :=
      match st.clipped_left with
      | .intval n => n
      | _ => 0
    if strand = ['+'] then
      let syn_start := left - clipped_left
      let start := left
      let en := start + st.align_len - 1
      let syn_end := en + st.clipped_right
      .ok (syn_start, start, en, syn_end)
    else
      let syn_end := left - clipped_left
      let en := left
      let start := en + st.align_len - 1
      let syn_start := start + st.clipped_right
      .ok (syn_start, start, en, syn_end)

/-! ### Token-level view of CIGAR strings

A well-formed CIGAR string is a sequence of `<decimal operand><operator>`
tokens.  `renderCigar` turns such a token list into the character string that
the Python loop scans; the lemmas below relate the character-level loop to a
token-level transition function, which the claim-level theorems analyse. -/

/-- Character rendering of one CIGAR token. -/
def renderTok (t : Nat × Char) : PyStr := natDigits t.1 ++ [t.2]

/-- Character rendering of a CIGAR token list. -/
def renderCigar (toks : List (Nat × Char)) : PyStr := (toks.map renderTok).flatten

/-- Token-level counterpart of `parse_cigar_step`, for one whole
`<operand><operator>` token starting from an empty `num` accumulator. -/
def cigarTokStep (st : CigarSt) (t : Nat × Char) : Except PyErr CigarSt :=
  if t.2 = 'H' then .error .hardClip
  else if isCigarOp t.2 then
    let st1 :=
      if t.2 = 'S' then
        match st.clipped_left with
        | .pynone => { st with clipped_left := .intval (t.1 : Int) }
        | _ => { st with clipped_right := (t.1 : Int) }
      else if isRefOp t.2 then
        { st with align_len := st.align_len + (t.1 : Int) }
      else st
    .ok ⟨if st1.clipped_left = .pynone then .pyfalse else st1.clipped_left,
      st1.clipped_right, [], st1.align_len⟩
  else .error .valueError

/-- Token-level counterpart of `parse_cigar_loop`. -/
def cigarTokLoop : List (Nat × Char) → CigarSt → Except PyErr CigarSt
  | [], st => .ok st
  | t :: rest, st =>
      match cigarTokStep st t with
      | .error e => .error e
      | .ok st1 => cigarTokLoop rest st1

theorem parse_cigar_loop_append (xs ys : List Char) (st : CigarSt) :
    parse_cigar_loop (xs ++ ys) st =
      match parse_cigar_loop xs st with
      | .error e => .error e
      | .ok st1 => parse_cigar_loop ys st1 := by
  induction xs generalizing st with
  | nil => simp [parse_cigar_loop]
  | cons c rest ih =>
    simp only [List.cons_append, parse_cigar_loop]
    cases parse_cigar_step st c with
    | error e => rfl
    | ok st1 => exact ih st1

theorem isCigarOp_eq_false_of_digit {c : Char} (h : c.isDigit = true) :
    isCigarOp c = false := by
  by_contra hne
  have hc : isCigarOp c = true := by simpa using hne
  simp only [isCigarOp, Bool.or_eq_true, decide_eq_true_eq] at hc
  rcases hc with ((((((rfl | rfl) | rfl) | rfl) | rfl) | rfl) | rfl) | rfl <;>
    exact absurd h (by decide)

theorem ne_hardclip_of_digit {c : Char} (h : c.isDigit = true) : ¬ (c = 'H') := by
  intro hc
  rw [hc] at h
  exact absurd h (by decide)

theorem parse_cigar_step_digit {c : Char} (h : c.isDigit = true) (st : CigarSt) :
    parse_cigar_step st c = .ok { st with num := st.num ++ [c] } := by
  simp [parse_cigar_step, ne_hardclip_of_digit h, isCigarOp_eq_false_of_digit h]

theorem parse_cigar_loop_digits {ds : List Char} (h : ds.all Char.isDigit = true)
    (st : CigarSt) :
    parse_cigar_loop ds st = .ok { st with num := st.num ++ ds } := by
  induction ds generalizing st with
  | nil => simp [parse_cigar_loop]
  | cons c rest ih =>
    simp only [List.all_cons, Bool.and_eq_true] at h
    simp only [parse_cigar_loop, parse_cigar_step_digit h.1]
    rw [ih h.2]
    simp

theorem cigarTokStep_num_nil {st : CigarSt} {t : Nat × Char} {st1 : CigarSt}
    (h : cigarTokStep st t = .ok st1) : st1.num = [] := by
  by_cases h2 : t.2 = 'H'
  · simp [cigarTokStep, h2] at h
  · by_cases h3 : isCigarOp t.2 = true
    · simp only [cigarTokStep, h2, if_false, h3, if_true, Except.ok.injEq] at h
      rw [← h]
    · simp [cigarTokStep, h2, h3] at h

theorem parse_cigar_loop_renderTok (st : CigarSt) (t : Nat × Char)
    (hop : t.2 = 'H' ∨ isCigarOp t.2 = true) (hnum : st.num = []) :
    parse_cigar_loop (renderTok t) st = cigarTokStep st t := by
  obtain ⟨n, op⟩ := t
  obtain ⟨cl, cr, num, al⟩ := st
  simp only at hnum
  subst hnum
  unfold renderTok
  rw [parse_cigar_loop_append, parse_cigar_loop_digits (natDigits_all_digits n)]
  simp only at hop
  rcases hop with rfl | hop
  · simp [parse_cigar_loop, parse_cigar_step, cigarTokStep]
  · simp only [isCigarOp, Bool.or_eq_true, decide_eq_true_eq] at hop
    rcases hop with ((((((rfl | rfl) | rfl) | rfl) | rfl) | rfl) | rfl) | rfl <;>
      cases cl <;>
        simp [parse_cigar_loop, parse_cigar_step, cigarTokStep, pyInt_natDigits,
          isCigarOp, isRefOp, Except.map]

theorem cigarTokLoop_append (xs ys : List (Nat × Char)) (st : CigarSt) :
    cigarTokLoop (xs ++ ys) st =
      match cigarTokLoop xs st with
      | .error e => .error e
      | .ok st1 => cigarTokLoop ys st1 := by
  induction xs generalizing st with
  | nil => simp [cigarTokLoop]
  | cons t rest ih =>
    simp only [List.cons_append, cigarTokLoop]
    cases cigarTokStep st t with
    | error e => rfl
    | ok st1 => exact ih st1

theorem parse_cigar_loop_renderCigar (toks : List (Nat × Char)) (st : CigarSt)
    (hops : ∀ t ∈ toks, t.2 = 'H' ∨ isCigarOp t.2 = true) (hnum : st.num = []) :
    parse_cigar_loop (renderCigar toks) st = cigarTokLoop toks st := by
  induction toks generalizing st with
  | nil => simp [renderCigar, parse_cigar_loop, cigarTokLoop]
  | cons t rest ih =>
    unfold renderCigar
    simp only [List.map_cons, List.flatten_cons]
    rw [parse_cigar_loop_append,
      parse_cigar_loop_renderTok st t (hops t (by simp)) hnum]
    cases h : cigarTokStep st t with
    | error e => simp [cigarTokLoop, h]
    | ok st1 =>
      have := ih st1 (fun x hx => hops x (by simp [hx])) (cigarTokStep_num_nil h)
      simp only [cigarTokLoop, h]
      exact this

/-- Reference-based alignment length of a CIGAR token list: the sum of the
operands of M, =, X, D and N operators. -/
def alignLenOf (toks : List (Nat × Char)) : Int :=
  (toks.map (fun t => if isRefOp t.2 then (t.1 : Int) else 0)).sum

theorem cigarTokLoop_mid (middle : List (Nat × Char)) (st : CigarSt)
    (hops : ∀ t ∈ middle, isCigarOp t.2 = true ∧ t.2 ≠ 'S' ∧ t.2 ≠ 'H')
    (hcl : st.clipped_left ≠ .pynone) (hnum : st.num = []) :
    cigarTokLoop middle st =
      .ok ⟨st.clipped_left, st.clipped_right, [], st.align_len + alignLenOf middle⟩ := by
  induction middle generalizing st with
  | nil =>
    simp only [cigarTokLoop, alignLenOf, List.map_nil, List.sum_nil, add_zero]
    conv_lhs => rw [show st = (⟨st.clipped_left, st.clipped_right, [], st.align_len⟩ :
      CigarSt) from by rw [← hnum]]
  | cons t rest ih =>
    obtain ⟨hop, hS, hH⟩ := hops t (by simp)
    have hstep : cigarTokStep st t =
        .ok ⟨st.clipped_left, st.clipped_right, [],
          st.align_len + (if isRefOp t.2 then (t.1 : Int) else 0)⟩ := by
      have hcl2 : ¬ (st.clipped_left = .pynone) := hcl
      by_cases hR : isRefOp t.2 = true <;>
        simp [cigarTokStep, hH, hop, hS, hR, hcl2]
    simp only [cigarTokLoop, hstep]
    rw [ih ⟨st.clipped_left, st.clipped_right, [],
      st.align_len + (if isRefOp t.2 = true then (t.1 : Int) else 0)⟩
      (fun x hx => hops x (by simp [hx])) hcl rfl]
    simp only [alignLenOf, List.map_cons, List.sum_cons, Except.ok.injEq, CigarSt.mk.injEq]
    refine ⟨trivial, trivial, trivial, by ring⟩

/-- Tokens contributed by an optional soft-clip length. -/
def sClipTok (o : Option Nat) : List (Nat × Char) :=
  o.toList.map (fun k => (k, 'S'))

theorem cigarTokLoop_trailing (ropt : Option Nat) (cl : ClippedLeft) (cr al : Int)
    (hcl : cl ≠ .pynone) :
    cigarTokLoop (sClipTok ropt) ⟨cl, cr, [], al⟩ =
      .ok ⟨cl, ropt.elim cr (fun r => (r : Int)), [], al⟩ := by
  cases ropt with
  | none => rfl
  | some r =>
    cases cl with
    | pynone => exact absurd rfl hcl
    | pyfalse => rfl
    | intval n => rfl

/-- C1: for a CIGAR made of an optional leading soft clip, a middle run of
M/I/D/N/P/=/X operators and an optional trailing soft clip, `parse_cigar`
returns exactly the 4-tuple described in the specification, with
`alignment_length` the sum of the M/=/X/D/N operands.  The hypothesis `hamb`
merely rules out the ambiguous decomposition of a clip-only CIGAR such as
`'5S'`, whose single soft clip is a leading clip. -/
theorem parse_cigar_clip_formula (pos : Int) (strand : PyStr) (lopt ropt : Option Nat)
    (middle : List (Nat × Char))
    (hmid : ∀ t ∈ middle, isCigarOp t.2 = true ∧ t.2 ≠ 'S' ∧ t.2 ≠ 'H')
    (hamb : ropt.isSome = true → lopt.isSome = true ∨ middle ≠ []) :
    parse_cigar pos strand (renderCigar (sClipTok lopt ++ middle ++ sClipTok ropt)) =
      (if strand = ['+'] then
        .ok (pos - (lopt.getD 0 : Nat), pos, pos + alignLenOf middle - 1,
          pos + alignLenOf middle - 1 + (ropt.getD 0 : Nat))
      else
        .ok (pos + alignLenOf middle - 1 + (ropt.getD 0 : Nat),
          pos + alignLenOf middle - 1, pos, pos - (lopt.getD 0 : Nat))) := by
  have hops : ∀ t ∈ sClipTok lopt ++ middle ++ sClipTok ropt,
      t.2 = 'H' ∨ isCigarOp t.2 = true := by
    intro t ht
    simp only [List.mem_append] at ht
    rcases ht with (hl | hm) | hr
    · right
      cases lopt with
      | none => simp [sClipTok] at hl
      | some l =>
        simp only [sClipTok, Option.toList, List.map_cons, List.map_nil,
          List.mem_singleton] at hl
        rw [hl]
        exact (by decide : isCigarOp 'S' = true)
    · exact Or.inr (hmid t hm).1
    · right
      cases ropt with
      | none => simp [sClipTok] at hr
      | some r =>
        simp only [sClipTok, Option.toList, List.map_cons, List.map_nil,
          List.mem_singleton] at hr
        rw [hr]
        exact (by decide : isCigarOp 'S' = true)
  have hloop :
      cigarTokLoop (sClipTok lopt ++ middle ++ sClipTok ropt) ⟨.pynone, 0, [], 0⟩ =
        .ok ⟨lopt.elim (if middle.isEmpty then ClippedLeft.pynone else .pyfalse)
            (fun l => .intval (l : Int)),
          ropt.elim 0 (fun r => (r : Int)),
          [], alignLenOf middle⟩ := by
    cases lopt with
    | some l =>
      show cigarTokLoop ((l, 'S') :: (middle ++ sClipTok ropt)) ⟨.pynone, 0, [], 0⟩ = _
      have hstep : cigarTokStep ⟨.pynone, 0, [], 0⟩ (l, 'S') =
          .ok ⟨.intval (l : Int), 0, [], 0⟩ := rfl
      simp only [cigarTokLoop, hstep]
      rw [cigarTokLoop_append,
        cigarTokLoop_mid middle ⟨.intval (l : Int), 0, [], 0⟩ hmid (by simp) rfl]
      simp only [zero_add]
      exact cigarTokLoop_trailing ropt (.intval (l : Int)) 0 (alignLenOf middle) (by simp)
    | none =>
      cases middle with
      | nil =>
        have hrnone : ropt = none := by
          cases ropt with
          | none => rfl
          | some r =>
            rcases hamb (by simp) with hc | hc
            · simp at hc
            · simp at hc
        subst hrnone
        show cigarTokLoop [] ⟨.pynone, 0, [], 0⟩ = _
        simp [cigarTokLoop, alignLenOf]
      | cons m ms =>
        obtain ⟨hopm, hSm, hHm⟩ := hmid m (by simp)
        show cigarTokLoop (m :: (ms ++ sClipTok ropt)) ⟨.pynone, 0, [], 0⟩ = _
        have hstep : cigarTokStep ⟨.pynone, 0, [], 0⟩ m =
            .ok ⟨.pyfalse, 0, [], (if isRefOp m.2 then (m.1 : Int) else 0)⟩ := by
          by_cases hR : isRefOp m.2 = true <;>
            simp [cigarTokStep, hHm, hopm, hSm, hR]
        simp only [cigarTokLoop, hstep]
        rw [cigarTokLoop_append,
          cigarTokLoop_mid ms ⟨.pyfalse, 0, [], (if isRefOp m.2 then (m.1 : Int) else 0)⟩
            (fun x hx => hmid x (by simp [hx])) (by simp) rfl]
        have halign : (if isRefOp m.2 then (m.1 : Int) else 0) + alignLenOf ms =
            alignLenOf (m :: ms) := by
          simp [alignLenOf]
        simp only [halign]
        exact cigarTokLoop_trailing ropt .pyfalse 0 (alignLenOf (m :: ms)) (by simp)
  unfold parse_cigar
  rw [parse_cigar_loop_renderCigar _ _ hops rfl, hloop]
  cases lopt with
  | some l =>
    cases ropt with
    | some r => simp
    | none => simp
  | none =>
    cases middle with
    | nil =>
      cases ropt with
      | some r => simp
      | none => simp
    | cons m ms =>
      cases ropt with
      | some r => simp
      | none => simp

theorem cigarTokStep_ok_of_no_H {st : CigarSt} {t : Nat × Char}
    (h1 : t.2 ≠ 'H') (h2 : isCigarOp t.2 = true) :
    ∃ st1, cigarTokStep st t = .ok st1 := by
  unfold cigarTokStep
  simp only [h1, if_false, h2, if_true]
  exact ⟨_, rfl⟩

theorem cigarTokLoop_ok_of_no_H {toks : List (Nat × Char)} {st : CigarSt}
    (h : ∀ t ∈ toks, isCigarOp t.2 = true ∧ t.2 ≠ 'H') :
    ∃ st1, cigarTokLoop toks st = .ok st1 := by
  induction toks generalizing st with
  | nil => exact ⟨st, rfl⟩
  | cons t rest ih =>
    obtain ⟨hop, hH⟩ := h t (by simp)
    obtain ⟨st1, hst1⟩ := @cigarTokStep_ok_of_no_H st _ hH hop
    obtain ⟨st2, hst2⟩ := @ih st1 (fun x hx => h x (by simp [hx]))
    exact ⟨st2, by simp [cigarTokLoop, hst1, hst2]⟩

theorem cigarTokLoop_hardClip_of_H {toks : List (Nat × Char)} {st : CigarSt}
    (hops : ∀ t ∈ toks, t.2 = 'H' ∨ isCigarOp t.2 = true)
    (hH : ∃ t ∈ toks, t.2 = 'H') :
    cigarTokLoop toks st = .error .hardClip := by
  induction toks generalizing st with
  | nil => simp at hH
  | cons t rest ih =>
    by_cases h1 : t.2 = 'H'
    · simp [cigarTokLoop, cigarTokStep, h1]
    · have hop : isCigarOp t.2 = true := (hops t (by simp)).resolve_left h1
      obtain ⟨st1, hst1⟩ := @cigarTokStep_ok_of_no_H st _ h1 hop
      have hHrest : ∃ x ∈ rest, x.2 = 'H' := by
        obtain ⟨x, hx, hx2⟩ := hH
        rcases List.mem_cons.mp hx with rfl | hxr
        · exact absurd hx2 h1
        · exact ⟨x, hxr, hx2⟩
      simp [cigarTokLoop, hst1, ih (fun x hx => hops x (by simp [hx])) hHrest]

/-- For a well-tokenised CIGAR, `parse_cigar` raises
HardClippingNotSupportedException exactly when the CIGAR contains an `H`
operator. -/
theorem parse_cigar_hardClip_iff (pos : Int) (strand : PyStr)
    (toks : List (Nat × Char))
    (hops : ∀ t ∈ toks, t.2 = 'H' ∨ isCigarOp t.2 = true) :
    parse_cigar pos strand (renderCigar toks) = .error .hardClip ↔
      ∃ t ∈ toks, t.2 = 'H' := by
  unfold parse_cigar
  rw [parse_cigar_loop_renderCigar _ _ hops rfl]
  constructor
  · intro h
    by_contra hno
    push_neg at hno
    have hall : ∀ t ∈ toks, isCigarOp t.2 = true ∧ t.2 ≠ 'H' := by
      intro t ht
      exact ⟨(hops t ht).resolve_left (hno t ht), hno t ht⟩
    obtain ⟨st1, hst1⟩ := cigarTokLoop_ok_of_no_H hall
    rw [hst1] at h
    by_cases hs : strand = ['+'] <;> simp [hs] at h
  · intro hH
    rw [cigarTokLoop_hardClip_of_H hops hH]

/-! ## SAM data model (dupliganger/sam.py, dupliganger/constants.py) -/

/-- Delimiter between a read name and its annotation (constants.py line 95). -/
def DELIM_ANNO : Char := '-'

/-- Delimiter between read-pair annotation values (constants.py line 97). -/
def DELIM_ANNO_READ_PAIR : Char := '^'

/-- Delimiter between annotation record types (constants.py line 99). -/
def DELIM_ANNO_TYPE : Char := ';'

/-- Delimiter between SAM fields (constants.py line 105). -/
def DELIM_SAM_FIELD : Char := '\t'

/-- Delimiter between list elements in a SimpleBucketLmdb (constants.py
line 109, ASCII record separator). -/
def DELIM_SAM_LIST_LMDB : Char := '\x1e'

/-- Default delimiter between items of a SimpleBucketDb (constants.py
line 112). -/
def DELIM_BUCKET_LIST : Char := ','

/-- Width of a zero-padded ReadGroupId (constants.py line 92). -/
def READ_GROUP_ID_DIGITS : Nat := 10

/-- SAM FLAG bit marking a PCR or optical duplicate (constants.py line 153). -/
def SAM_FORMAT_FLAG_DUPLICATE : Int := 0x400

/-- An alignment line of a SAM file (class `Read`, dupliganger/sam.py
lines 157-183; identical fields in superdeduper/sam.py lines 149-175). -/
structure Read where
  qname : PyStr
  flag : Int
  rname : PyStr
  pos : Int
  mapq : PyStr
  cigar : PyStr
  deriving DecidableEq, Repr

/-- `Read.__init__(line)`: split the line on tabs and parse the first six
fields. -/
def mkRead (line : PyStr) : Except PyErr Read := do
  let p := pySplit DELIM_SAM_FIELD line
  let qname ← pyIndex p 0
  let flag ← pyInt (← pyIndex p 1)
  let rname ← pyIndex p 2
  let pos ← pyInt (← pyIndex p 3)
  let mapq ← pyIndex p 4
  let cigar ← pyIndex p 5
  pure ⟨qname, flag, rname, pos, mapq, cigar⟩

/-- The `strand` property of `Read` (dupliganger/sam.py lines 181-183):
reverse strand when FLAG bit 0x010 is set. -/
def Read.strand (r : Read) : PyStr :=
  if (16 : Int) = Int.land 16 r.flag then ['-'] else ['+']

/-- `Read.__repr__` (dupliganger/sam.py lines 175-179): the six fields joined
by tabs, the form stored in the databases. -/
def Read.reprStr (r : Read) : PyStr :=
  pyJoin [DELIM_SAM_FIELD]
    [r.qname, pyStrOfInt r.flag, r.rname, pyStrOfInt r.pos, r.mapq, r.cigar]

/-- A ReadGroup (class `ReadGroup`, dupliganger/sam.py lines 186-243) is a
list of alignment lines sharing a qname. -/
abbrev ReadGroup := List Read

/-- The `name` property of `ReadGroup` (dupliganger/sam.py lines 236-239):
qname of the first Read. -/
def ReadGroup.nameOf (rg : ReadGroup) : Except PyErr PyStr :=
  (pyIndex rg 0).map Read.qname

/-- `ReadGroup.__repr__` (dupliganger/sam.py lines 230-234): member reads
joined by the ASCII record separator. -/
def ReadGroup.reprStr (rg : ReadGroup) : PyStr :=
  pyJoin [DELIM_SAM_LIST_LMDB] (rg.map Read.reprStr)

/-- `ReadGroup.load` (dupliganger/sam.py lines 214-228): split the stored
string on the record separator and parse each piece as a Read. -/
def ReadGroup.loadStr (s : PyStr) : Except PyErr ReadGroup :=
  (pySplit DELIM_SAM_LIST_LMDB s).mapM mkRead

/-- `to_location_key_with_5p_trimming(read_group)` (dupliganger/sam.py
lines 55-80): the comma-joined `rname:start:strand` triples, where each
start is the soft-clip-corrected synthetic start further shifted by the
5-prime trim parsed from the qname annotation, alternating trim values
across mates by index parity. -/
def to_location_key_with_5p_trimming (rg : ReadGroup) : Except PyErr PyStr := do
  let r0 ← pyIndex rg 0
  let annoPart ← pyIndex (pySplit DELIM_ANNO_TYPE r0.qname) 1
  let trims_5p ← (pySplit DELIM_ANNO_READ_PAIR annoPart).mapM pyInt
  let locs ← rg.enum.mapM (fun it => do
    let i := it.1
    let read := it.2
    let res ← parse_cigar read.pos read.strand read.cigar
    let syn_start := res.1
    let trim ← pyIndex trims_5p (i % 2)
    let corrected := if read.strand = ['+'] then syn_start - trim else syn_start + trim
    pure (read.rname ++ [':'] ++ pyStrOfInt corrected ++ [':'] ++ read.strand))
  pure (pyJoin [DELIM_BUCKET_LIST] locs)

/-! ## Memory-backend stores (dupliganger/db.py) -/

/-- A Python dict with insertion-ordered keys, as used by the memory-backend
stores: an association list where `put` updates in place and inserts new keys
at the end. -/
abbrev PyDict (α : Type) := List (PyStr × α)

/-- Dict lookup `d.get(k)`. -/
def dictGet {α : Type} (d : PyDict α) (k : PyStr) : Option α :=
  match d with
  | [] => none
  | kv :: rest => if kv.1 = k then some kv.2 else dictGet rest k

/-- Dict store `d[k] = v` (`SimpleObjectDbDict.put`, dupliganger/db.py
lines 203-204). -/
def dictPut {α : Type} (d : PyDict α) (k : PyStr) (v : α) : PyDict α :=
  match d with
  | [] => [(k, v)]
  | kv :: rest => if kv.1 = k then (k, v) :: rest else kv :: dictPut rest k v

/-- `SimpleBucketDict.append` (dupliganger/db.py lines 389-391):
`setdefault(k, [])` followed by an in-place list append. -/
def bucketDictAppend {α : Type} (d : PyDict (List α)) (k : PyStr) (v : α) :
    PyDict (List α) :=
  match d with
  | [] => [(k, [v])]
  | kv :: rest => if kv.1 = k then (kv.1, kv.2 ++ [v]) :: rest
      else kv :: bucketDictAppend rest k v

/-- `LocationBucketDb.append` (dupliganger/db.py lines 430-438): compute the
location key of the read group and append the ReadGroupId under it, but catch
HardClippingNotSupportedException and drop the entry (with a warning) while
leaving the store untouched. -/
def locationBucketAppend (locDb : PyDict (List PyStr)) (read_group_id : PyStr)
    (rg : ReadGroup) : Except PyErr (PyDict (List PyStr)) :=
  match to_location_key_with_5p_trimming rg with
  | .ok loc_key => .ok (bucketDictAppend locDb loc_key read_group_id)
  | .error .hardClip => .ok locDb
  | .error e => .error e

/-! ## Ingestion pipeline (dupliganger/build_read_and_loc_dbs.py) -/

/-- Python `ascii(read_group_id).zfill(READ_GROUP_ID_DIGITS)`. -/
def readGroupIdStr (n : Nat) : PyStr :=
  let s := natDigits n
  if s.length ≥ READ_GROUP_ID_DIGITS then s
  else List.replicate (READ_GROUP_ID_DIGITS - s.length) '0' ++ s

/-- The two stores and the `num_read_groups` report counter populated by the
ingestion pipeline (memory backend). -/
structure IngestDbs where
  read_group_db : PyDict ReadGroup
  loc_db : PyDict (List PyStr)
  num_read_groups : Nat
  deriving DecidableEq, Repr

/-- Writing one completed ReadGroup (build_read_and_loc_dbs.py lines 178-183
and the end-of-file flush, lines 195-199): the group is put into the
read-group object store, then appended to the location index, and the
read-group counter is incremented.  Line 180 first evaluates
`read_group[0].qname.split(DELIM_ANNO)[0]` (the result is unused but the
indexing can raise). -/
def writeReadGroup (st : IngestDbs) (rg_id_str : PyStr) (rg : ReadGroup) :
    Except PyErr IngestDbs := do
  let r0 ← pyIndex rg 0
  let _ ← pyIndex (pySplit DELIM_ANNO r0.qname) 0
  let locDb ← locationBucketAppend st.loc_db rg_id_str rg
  pure ⟨dictPut st.read_group_db rg_id_str rg, locDb, st.num_read_groups + 1⟩

/-- The inner `while True` loop of `write_to_read_and_location_dbs_txn`
(build_read_and_loc_dbs.py lines 159-176): pop lines until EOF, a blank
line, or a read with a new qname; skip header lines; accumulate same-qname
reads into the current read group.  Returns the remaining input, the
accumulated group, the last appended read, the look-ahead read that broke
the group (if any), and the `remaining_lines` flag. -/
def ingestInner : List PyStr → ReadGroup → Option Read →
    Except PyErr (List PyStr × ReadGroup × Option Read × Option Read × Bool)
  | [], rg, prev => .ok ([], rg, prev, none, false)
  | l0 :: fin, rg, prev =>
      if (pyRstrip l0).isEmpty then .ok (fin, rg, prev, none, false)
      else if (pyRstrip l0).head? = some '@' then ingestInner fin rg prev
      else
        match mkRead (pyRstrip l0) with
        | .error e => .error e
        | .ok read =>
          match prev with
          | some p =>
              if p.qname ≠ read.qname then .ok (fin, rg, prev, some read, true)
              else ingestInner fin (rg ++ [read]) (some read)
          | none => ingestInner fin (rg ++ [read]) (some read)

/-- The outer `while remaining_lines and record_count < records_per_txn` loop
of `write_to_read_and_location_dbs_txn` (lines 158-193), with the per-txn
record budget as explicit fuel, followed by the end-of-file flush
(lines 195-199).  Returns `(done, fin, read_group_id, read_group, dbs)`. -/
def ingestTxnLoop : Nat → List PyStr → Nat → ReadGroup → Option Read → IngestDbs →
    Except PyErr (Bool × List PyStr × Nat × ReadGroup × IngestDbs)
  | 0, fin, rgId, rg, _, st => .ok (false, fin, rgId, rg, st)
  | b + 1, fin, rgId, rg, prev, st =>
      match ingestInner fin rg prev with
      | .error e => .error e
      | .ok (fin1, rg1, prev1, readq, remaining) =>
          match (if prev1.isSome then writeReadGroup st (readGroupIdStr rgId) rg1
                 else .ok st) with
          | .error e => .error e
          | .ok st1 =>
              let rgNew : ReadGroup := match readq with | some r => [r] | none => []
              if remaining then ingestTxnLoop b fin1 (rgId + 1) rgNew readq st1
              else
                if rgNew.isEmpty then .ok (true, fin1, rgId + 1, rgNew, st1)
                else
                  match writeReadGroup st1 (readGroupIdStr (rgId + 1)) rgNew with
                  | .error e => .error e
                  | .ok st2 => .ok (true, fin1, rgId + 1, rgNew, st2)

/-- `write_to_read_and_location_dbs_txn` (build_read_and_loc_dbs.py
lines 122-202): the previous read at entry is the last member of the
carried-over read group (lines 149-156). -/
def write_to_read_and_location_dbs_txn (fin : List PyStr) (rgId : Nat)
    (curr : ReadGroup) (records_per_txn : Nat) (st : IngestDbs) :
    Except PyErr (Bool × List PyStr × Nat × ReadGroup × IngestDbs) :=
  ingestTxnLoop records_per_txn fin rgId curr curr.getLast? st

theorem ingestInner_length {fin : List PyStr} {rg : ReadGroup} {prev : Option Read}
    {fin1 : List PyStr} {rg1 : ReadGroup} {prev1 readq : Option Read} {remaining : Bool}
    (h : ingestInner fin rg prev = .ok (fin1, rg1, prev1, readq, remaining)) :
    fin1.length ≤ fin.length ∧ (remaining = true → fin1.length < fin.length) := by
  induction fin generalizing rg prev with
  | nil =>
    simp only [ingestInner, Except.ok.injEq, Prod.mk.injEq] at h
    obtain ⟨h1, _, _, _, h5⟩ := h
    subst h1
    exact ⟨le_refl _, by rw [← h5]; simp⟩
  | cons l0 fin ih =>
    simp only [ingestInner] at h
    split at h
    · simp only [Except.ok.injEq, Prod.mk.injEq] at h
      obtain ⟨h1, _, _, _, h5⟩ := h
      subst h1
      exact ⟨by simp, by rw [← h5]; simp⟩
    · split at h
      · obtain ⟨ha, hb⟩ := ih h
        exact ⟨le_trans ha (by simp), fun hr => lt_trans (hb hr) (by simp)⟩
      · split at h
        · exact absurd h (by simp)
        · split at h
          · split at h
            · simp only [Except.ok.injEq, Prod.mk.injEq] at h
              obtain ⟨h1, _, _, _, _⟩ := h
              subst h1
              exact ⟨by simp, fun _ => by simp⟩
            · obtain ⟨ha, hb⟩ := ih h
              exact ⟨le_trans ha (by simp), fun hr => lt_trans (hb hr) (by simp)⟩
          · obtain ⟨ha, hb⟩ := ih h
            exact ⟨le_trans ha (by simp), fun hr => lt_trans (hb hr) (by simp)⟩

theorem ingestTxnLoop_false_lt : ∀ (b : Nat), 1 ≤ b →
    ∀ {fin : List PyStr} {rgId : Nat} {rg : ReadGroup} {prev : Option Read}
      {st : IngestDbs} {fin1 rgId1 rg1 st1},
    ingestTxnLoop b fin rgId rg prev st = .ok (false, fin1, rgId1, rg1, st1) →
    fin1.length < fin.length := by
  intro b
  induction b with
  | zero => omega
  | succ b ih =>
    intro _ fin rgId rg prev st fin1 rgId1 rg1 st1 h
    simp only [ingestTxnLoop] at h
    split at h
    · exact absurd h (by simp)
    · rename_i inner finA rgA prevA readqA remainingA hinner
      split at h
      · exact absurd h (by simp)
      · rename_i stA hwrite
        split at h
        · rename_i hrem
          have hlt : finA.length < fin.length := (ingestInner_length hinner).2 hrem
          rcases Nat.eq_zero_or_pos b with rfl | hb
          · simp only [ingestTxnLoop, Except.ok.injEq, Prod.mk.injEq] at h
            obtain ⟨_, h2, _⟩ := h
            rw [← h2]
            exact hlt
          · exact lt_trans (ih hb h) hlt
        · split at h
          · exact absurd h (by simp)
          · split at h
            · exact absurd h (by simp)
            · exact absurd h (by simp)

theorem ingestTxnLoop_add (b : Nat) : ∀ (c : Nat) {fin : List PyStr} {rgId : Nat}
    {rg : ReadGroup} {prev : Option Read} {st : IngestDbs}, prev = rg.getLast? →
    ingestTxnLoop (b + c) fin rgId rg prev st =
      match ingestTxnLoop b fin rgId rg prev st with
      | .error e => .error e
      | .ok (true, fin1, rgId1, rg1, st1) => .ok (true, fin1, rgId1, rg1, st1)
      | .ok (false, fin1, rgId1, rg1, st1) =>
          ingestTxnLoop c fin1 rgId1 rg1 rg1.getLast? st1 := by
  induction b with
  | zero =>
    intro c fin rgId rg prev st hprev
    subst hprev
    simp [ingestTxnLoop]
  | succ b ih =>
    intro c fin rgId rg prev st hprev
    have hbc : b + 1 + c = (b + c) + 1 := by omega
    rw [hbc]
    simp only [ingestTxnLoop]
    split
    · rfl
    · rename_i fin1 rg1 prev1 readq1 rem1 hinner
      split
      · rfl
      · rename_i stA hwrite
        by_cases hrem : rem1 = true
        · simp only [hrem, if_true]
          exact ih c (by cases readq1 <;> rfl)
        · simp only [Bool.not_eq_true] at hrem
          subst hrem
          simp only [Bool.false_eq_true, if_false]
          split
          · rfl
          · split
            · rfl
            · rfl

theorem ingestTxnLoop_adequate (n : Nat) : ∀ (fin : List PyStr), fin.length ≤ n →
    ∀ (rgId : Nat) (rg : ReadGroup) (st : IngestDbs),
    (∃ e, ingestTxnLoop (fin.length + 1) fin rgId rg rg.getLast? st = .error e) ∨
    (∃ fin1 rgId1 rg1 st1, ingestTxnLoop (fin.length + 1) fin rgId rg rg.getLast? st =
      .ok (true, fin1, rgId1, rg1, st1)) := by
  induction n with
  | zero =>
    intro fin hlen rgId rg st
    have hnil : fin = [] := List.length_eq_zero.mp (Nat.le_zero.mp hlen)
    subst hnil
    simp only [List.length_nil, zero_add, ingestTxnLoop, ingestInner]
    cases hwrite : (if (rg.getLast?).isSome then
        writeReadGroup st (readGroupIdStr rgId) rg else .ok st) with
    | error e => exact Or.inl ⟨e, rfl⟩
    | ok stA => exact Or.inr ⟨[], rgId + 1, [], stA, rfl⟩
  | succ n ih =>
    intro fin hlen rgId rg st
    rcases le_or_lt fin.length n with hle | hgt
    · exact ih fin hle rgId rg st
    · have hlen2 : fin.length = n + 1 := by omega
      have hsplit : fin.length + 1 = 1 + fin.length := by omega
      rw [hsplit, ingestTxnLoop_add 1 fin.length rfl]
      cases hT : ingestTxnLoop 1 fin rgId rg rg.getLast? st with
      | error e => exact Or.inl ⟨e, rfl⟩
      | ok out =>
        obtain ⟨done, fin1, rgId1, rg1, st1⟩ := out
        cases done with
        | true => exact Or.inr ⟨fin1, rgId1, rg1, st1, rfl⟩
        | false =>
          have hlt : fin1.length < fin.length := ingestTxnLoop_false_lt 1 (by omega) hT
          have hk : fin.length = (fin1.length + 1) + (fin.length - fin1.length - 1) := by
            omega
          simp only []
          rw [hk, ingestTxnLoop_add (fin1.length + 1) _ rfl]
          rcases ih fin1 (by omega) rgId1 rg1 st1 with ⟨e, he⟩ | ⟨a, b2, c2, d2, hd⟩
          · rw [he]
            exact Or.inl ⟨e, rfl⟩
          · rw [hd]
            exact Or.inr ⟨a, b2, c2, d2, rfl⟩

/-- The `while (not done)` driver of `write_to_read_and_location_dbs`
(build_read_and_loc_dbs.py lines 102-120), with fuel: each pass opens a
transaction and runs `write_to_read_and_location_dbs_txn`, threading the
read_group_id and the carried-over partial read group.  `none` means the
fuel ran out, which the theorems below show never happens for a positive
batch size when the fuel exceeds the number of input lines. -/
def ingestDriver : Nat → List PyStr → Nat → ReadGroup → Nat → IngestDbs →
    Option (Except PyErr IngestDbs)
  | 0, _, _, _, _, _ => none
  | f + 1, fin, rgId, curr, rptxn, st =>
      match write_to_read_and_location_dbs_txn fin rgId curr rptxn st with
      | .error e => some (.error e)
      | .ok (true, _, _, _, st1) => some (.ok st1)
      | .ok (false, fin1, rgId1, rg1, st1) => ingestDriver f fin1 rgId1 rg1 rptxn st1

/-- `write_to_read_and_location_dbs(report_db, fin, parent_db, read_group_db,
location_db, records_per_txn)`: run the whole ingestion over the input
lines, starting from read_group_id 1, an empty carried group and empty
stores. -/
def write_to_read_and_location_dbs (lines : List PyStr) (records_per_txn : Nat) :
    Option (Except PyErr IngestDbs) :=
  ingestDriver (lines.length + 1) lines 1 [] records_per_txn ⟨[], [], 0⟩

/-- Reference run: the whole remaining input ingested inside one transaction
whose record budget exceeds the number of remaining lines. -/
def ingestSingleTxn (fin : List PyStr) (rgId : Nat) (rg : ReadGroup)
    (st : IngestDbs) : Except PyErr IngestDbs :=
  match ingestTxnLoop (fin.length + 1) fin rgId rg rg.getLast? st with
  | .error e => .error e
  | .ok (_, _, _, _, st1) => .ok st1

theorem ingestTxnLoop_stable {b k : Nat} {fin : List PyStr} {rgId : Nat}
    {rg : ReadGroup} {st : IngestDbs}
    (h : (∃ e, ingestTxnLoop b fin rgId rg rg.getLast? st = .error e) ∨
      (∃ fin1 rgId1 rg1 st1, ingestTxnLoop b fin rgId rg rg.getLast? st =
        .ok (true, fin1, rgId1, rg1, st1))) :
    ingestTxnLoop (b + k) fin rgId rg rg.getLast? st =
      ingestTxnLoop b fin rgId rg rg.getLast? st := by
  rw [ingestTxnLoop_add b k rfl]
  rcases h with ⟨e, he⟩ | ⟨fin1, rgId1, rg1, st1, ht⟩
  · rw [he]
  · rw [ht]

theorem ingestDriver_eq_single (fuel : Nat) : ∀ {fin : List PyStr} {rgId : Nat}
    {rg : ReadGroup} {rptxn : Nat} {st : IngestDbs},
    1 ≤ rptxn → fin.length < fuel →
    ingestDriver fuel fin rgId rg rptxn st = some (ingestSingleTxn fin rgId rg st) := by
  induction fuel with
  | zero => omega
  | succ f ih =>
    intro fin rgId rg rptxn st hr hf
    have hadq := ingestTxnLoop_adequate fin.length fin (le_refl _) rgId rg st
    -- the canonical one-transaction result agrees with the rptxn-budget run
    -- continued by a canonical run: both equal the run at a common larger budget
    simp only [ingestDriver, write_to_read_and_location_dbs_txn]
    have hcomm : rptxn + (fin.length + 1) = (fin.length + 1) + rptxn := by omega
    have hbig : ingestTxnLoop (rptxn + (fin.length + 1)) fin rgId rg rg.getLast? st =
        ingestTxnLoop (fin.length + 1) fin rgId rg rg.getLast? st := by
      rw [hcomm]
      exact ingestTxnLoop_stable hadq
    rw [ingestTxnLoop_add rptxn (fin.length + 1) rfl] at hbig
    cases hT : ingestTxnLoop rptxn fin rgId rg rg.getLast? st with
    | error e =>
      rw [hT] at hbig
      have hbig2 : (Except.error e : Except PyErr
            (Bool × List PyStr × Nat × ReadGroup × IngestDbs)) =
          ingestTxnLoop (fin.length + 1) fin rgId rg rg.getLast? st := hbig
      show some (Except.error e) = some (ingestSingleTxn fin rgId rg st)
      unfold ingestSingleTxn
      rw [← hbig2]
    | ok out =>
      obtain ⟨done, fin1, rgId1, rg1, st1⟩ := out
      cases done with
      | true =>
        rw [hT] at hbig
        have hbig2 : (Except.ok (true, fin1, rgId1, rg1, st1) : Except PyErr
              (Bool × List PyStr × Nat × ReadGroup × IngestDbs)) =
            ingestTxnLoop (fin.length + 1) fin rgId rg rg.getLast? st := hbig
        show some (Except.ok st1) = some (ingestSingleTxn fin rgId rg st)
        unfold ingestSingleTxn
        rw [← hbig2]
      | false =>
        rw [hT] at hbig
        have hbig2 : ingestTxnLoop (fin.length + 1) fin1 rgId1 rg1 rg1.getLast? st1 =
            ingestTxnLoop (fin.length + 1) fin rgId rg rg.getLast? st := hbig
        have hlt : fin1.length < fin.length := ingestTxnLoop_false_lt rptxn hr hT
        have hrec := @ih fin1 rgId1 rg1 rptxn st1 hr (by omega)
        have hadq1 := ingestTxnLoop_adequate fin1.length fin1 (le_refl _) rgId1 rg1 st1
        have hstep : ingestTxnLoop (fin.length + 1) fin1 rgId1 rg1 rg1.getLast? st1 =
            ingestTxnLoop (fin1.length + 1) fin1 rgId1 rg1 rg1.getLast? st1 := by
          have hk : fin.length + 1 = (fin1.length + 1) + (fin.length - fin1.length) := by
            omega
          rw [hk]
          exact ingestTxnLoop_stable hadq1
        show ingestDriver f fin1 rgId1 rg1 rptxn st1 = some (ingestSingleTxn fin rgId rg st)
        rw [hrec]
        unfold ingestSingleTxn
        rw [← hbig2, hstep]

/-- C2: ingesting any SAM input with any two positive batch sizes
(records_per_txn) produces identical results: the same read-group
object-store contents, the same location-index contents and the same
read-group count (or the identical propagated error), and both equal the
reference run that ingests everything in one transaction.  In the reference
run each completed group of consecutive same-qname alignment lines is
written exactly once under the next ReadGroupId, so in particular no
ReadGroup is ever split across two committed batches. -/
theorem write_dbs_batch_invariant (lines : List PyStr) (r1 r2 : Nat)
    (h1 : 1 ≤ r1) (h2 : 1 ≤ r2) :
    write_to_read_and_location_dbs lines r1 =
        some (ingestSingleTxn lines 1 [] ⟨[], [], 0⟩) ∧
      write_to_read_and_location_dbs lines r1 = write_to_read_and_location_dbs lines r2 := by
  unfold write_to_read_and_location_dbs
  rw [ingestDriver_eq_single (lines.length + 1) h1 (by omega),
    ingestDriver_eq_single (lines.length + 1) h2 (by omega)]
  exact ⟨rfl, rfl⟩

/-- Witness for C2 at a concrete two-group SAM input with batch sizes 1
and 3. -/
theorem write_dbs_batch_invariant_witness :
    (1 ≤ 1 ∧ 1 ≤ 3) ∧
      (write_to_read_and_location_dbs
          (["r1-GGCCTAAT^AGCTCTAG;1^2\t0\tchr1\t100\t60\t10M",
            "r1-GGCCTAAT^AGCTCTAG;1^2\t16\tchr1\t200\t60\t10M",
            "r2-AACGCCAT^AGCTCTAG;0^0\t0\tchr2\t50\t60\t5S5M"].map String.toList) 1 =
        write_to_read_and_location_dbs
          (["r1-GGCCTAAT^AGCTCTAG;1^2\t0\tchr1\t100\t60\t10M",
            "r1-GGCCTAAT^AGCTCTAG;1^2\t16\tchr1\t200\t60\t10M",
            "r2-AACGCCAT^AGCTCTAG;0^0\t0\tchr2\t50\t60\t5S5M"].map String.toList) 3) := by
  refine ⟨⟨by decide, by decide⟩, ?_⟩
  exact (write_dbs_batch_invariant _ 1 3 (by decide) (by decide)).2

theorem pySplitAux_ne_nil (sep : Char) : ∀ (s acc : List Char),
    pySplitAux sep s acc ≠ [] := by
  intro s
  induction s with
  | nil => intro acc; simp [pySplitAux]
  | cons c cs ih =>
    intro acc
    by_cases hc : c = sep <;> simp [pySplitAux, hc, ih]

theorem pyIndex_zero_ok {α : Type} (xs : List α) (h : xs ≠ []) :
    ∃ a, pyIndex xs 0 = .ok a := by
  cases xs with
  | nil => exact absurd rfl h
  | cons a rest => exact ⟨a, by simp [pyIndex]⟩

/-- C8: `parse_cigar` raises HardClippingNotSupportedException exactly when
the CIGAR contains an `H` operator, and during ingestion this failure is
non-fatal: `LocationBucketDb.append` swallows it, leaving the location index
untouched, while the per-group write still stores the ReadGroup in the
read-group object store and increments the counter, so the run continues. -/
theorem parse_cigar_hardclip_iff_and_drop :
    (∀ (pos : Int) (strand : PyStr) (toks : List (Nat × Char)),
      (∀ t ∈ toks, t.2 = 'H' ∨ isCigarOp t.2 = true) →
      (parse_cigar pos strand (renderCigar toks) = .error .hardClip ↔
        ∃ t ∈ toks, t.2 = 'H'))
    ∧ (∀ (st : IngestDbs) (idStr : PyStr) (rg : ReadGroup) (r0 : Read),
      rg.head? = some r0 →
      to_location_key_with_5p_trimming rg = .error .hardClip →
      locationBucketAppend st.loc_db idStr rg = .ok st.loc_db ∧
      writeReadGroup st idStr rg =
        .ok ⟨dictPut st.read_group_db idStr rg, st.loc_db, st.num_read_groups + 1⟩) := by
  constructor
  · exact parse_cigar_hardClip_iff
  · intro st idStr rg r0 hhead hkey
    have happend : locationBucketAppend st.loc_db idStr rg = .ok st.loc_db := by
      unfold locationBucketAppend
      rw [hkey]
    refine ⟨happend, ?_⟩
    cases rg with
    | nil => simp at hhead
    | cons x rest =>
      simp only [List.head?_cons, Option.some.injEq] at hhead
      subst hhead
      obtain ⟨a0, ha0⟩ := pyIndex_zero_ok (pySplit DELIM_ANNO x.qname)
        (pySplitAux_ne_nil DELIM_ANNO x.qname [])
      have hx : pyIndex ((x :: rest : ReadGroup)) 0 = .ok x := by simp [pyIndex]
      simp only [writeReadGroup, bind, Except.bind, hx, ha0, happend, pure, Except.pure]

/-- Witness for C8 on the `'6H5M'` hard-clipped CIGAR of the specification. -/
theorem parse_cigar_hardclip_iff_and_drop_witness :
    (parse_cigar 100 ['-'] (renderCigar [(6, 'H'), (5, 'M')]) = .error .hardClip ↔
      ∃ t ∈ [((6 : Nat), 'H'), (5, 'M')], t.2 = 'H')
    ∧ locationBucketAppend [] ("0000000001".toList)
        [⟨"r1-GGCCTAAT^AGCTCTAG;1^2".toList, 0, "chr1".toList, 100, "60".toList,
          "6H5M".toList⟩] = .ok []
    ∧ writeReadGroup ⟨[], [], 0⟩ ("0000000001".toList)
        [⟨"r1-GGCCTAAT^AGCTCTAG;1^2".toList, 0, "chr1".toList, 100, "60".toList,
          "6H5M".toList⟩] =
      .ok ⟨dictPut [] ("0000000001".toList)
        [⟨"r1-GGCCTAAT^AGCTCTAG;1^2".toList, 0, "chr1".toList, 100, "60".toList,
          "6H5M".toList⟩], [], 1⟩ := by
  refine ⟨parse_cigar_hardclip_iff_and_drop.1 100 ['-'] [(6, 'H'), (5, 'M')] (by decide),
    ?_, ?_⟩
  · exact (parse_cigar_hardclip_iff_and_drop.2 ⟨[], [], 0⟩ ("0000000001".toList)
      [⟨"r1-GGCCTAAT^AGCTCTAG;1^2".toList, 0, "chr1".toList, 100, "60".toList,
        "6H5M".toList⟩]
      ⟨"r1-GGCCTAAT^AGCTCTAG;1^2".toList, 0, "chr1".toList, 100, "60".toList,
        "6H5M".toList⟩ rfl rfl).1
  · exact (parse_cigar_hardclip_iff_and_drop.2 ⟨[], [], 0⟩ ("0000000001".toList)
      [⟨"r1-GGCCTAAT^AGCTCTAG;1^2".toList, 0, "chr1".toList, 100, "60".toList,
        "6H5M".toList⟩]
      ⟨"r1-GGCCTAAT^AGCTCTAG;1^2".toList, 0, "chr1".toList, 100, "60".toList,
        "6H5M".toList⟩ rfl rfl).2

/-- Witness for C1 on the specification's concrete examples `'1M'` and
`'10S101M'` at pos 100 on the forward strand. -/
theorem parse_cigar_clip_formula_witness :
    parse_cigar 100 ['+'] ("1M".toList) = .ok (100, 100, 100, 100)
    ∧ parse_cigar 100 ['+'] ("10S101M".toList) = .ok (90, 100, 200, 200) := by
  constructor
  · have h := parse_cigar_clip_formula 100 ['+'] none none [(1, 'M')]
      (by decide) (by decide)
    rw [show renderCigar (sClipTok none ++ [(1, 'M')] ++ sClipTok none) = "1M".toList
      from by decide] at h
    rw [h, if_pos rfl]
    norm_num [alignLenOf, isRefOp]
  · have h := parse_cigar_clip_formula 100 ['+'] (some 10) none [(101, 'M')]
      (by decide) (by decide)
    rw [show renderCigar (sClipTok (some 10) ++ [(101, 'M')] ++ sClipTok none) =
      "10S101M".toList from by decide] at h
    rw [h, if_pos rfl]
    norm_num [alignLenOf, isRefOp]

/-! ## Dict lemmas and serialization round-trip (for the backend comparison) -/

theorem dictGet_dictPut_self {α : Type} (d : PyDict α) (k : PyStr) (v : α) :
    dictGet (dictPut d k v) k = some v := by
  induction d with
  | nil => simp [dictPut, dictGet]
  | cons kv rest ih =>
    by_cases hk : kv.1 = k
    · simp [dictPut, dictGet, hk]
    · simp [dictPut, dictGet, hk, ih]

theorem dictGet_dictPut_other {α : Type} (d : PyDict α) (k k' : PyStr) (v : α)
    (h : k' ≠ k) : dictGet (dictPut d k v) k' = dictGet d k' := by
  have hkk : ¬ (k = k') := fun hc => h hc.symm
  induction d with
  | nil => simp [dictPut, dictGet, hkk]
  | cons kv rest ih =>
    by_cases hk : kv.1 = k
    · subst hk
      simp [dictPut, dictGet, hkk]
    · simp only [dictPut, hk, if_false]
      by_cases hk2 : kv.1 = k' <;> simp [dictGet, hk2, ih]

theorem dictGet_bucketAppend_self {α : Type} (d : PyDict (List α)) (k : PyStr) (v : α) :
    dictGet (bucketDictAppend d k v) k = some ((dictGet d k).getD [] ++ [v]) := by
  induction d with
  | nil => simp [bucketDictAppend, dictGet]
  | cons kv rest ih =>
    by_cases hk : kv.1 = k
    · simp [bucketDictAppend, dictGet, hk]
    · simp [bucketDictAppend, dictGet, hk, ih]

theorem dictGet_bucketAppend_other {α : Type} (d : PyDict (List α)) (k k' : PyStr)
    (v : α) (h : k' ≠ k) :
    dictGet (bucketDictAppend d k v) k' = dictGet d k' := by
  have hkk : ¬ (k = k') := fun hc => h hc.symm
  induction d with
  | nil => simp [bucketDictAppend, dictGet, hkk]
  | cons kv rest ih =>
    by_cases hk : kv.1 = k
    · subst hk
      simp [bucketDictAppend, dictGet, hkk]
    · simp only [bucketDictAppend, hk, if_false]
      by_cases hk2 : kv.1 = k' <;> simp [dictGet, hk2, ih]

theorem pySplitAux_no_sep (sep : Char) : ∀ (x acc : List Char), sep ∉ x →
    pySplitAux sep x acc = [acc.reverse ++ x] := by
  intro x
  induction x with
  | nil => intro acc _; simp [pySplitAux]
  | cons c cs ih =>
    intro acc hsep
    have hc : ¬ (c = sep) := fun hc => hsep (by simp [hc])
    simp only [pySplitAux, hc, if_false]
    rw [ih (c :: acc) (fun hm => hsep (by simp [hm]))]
    simp

theorem pySplitAux_break (sep : Char) : ∀ (x rest acc : List Char), sep ∉ x →
    pySplitAux sep (x ++ sep :: rest) acc =
      (acc.reverse ++ x) :: pySplitAux sep rest [] := by
  intro x
  induction x with
  | nil => intro rest acc _; simp [pySplitAux]
  | cons c cs ih =>
    intro rest acc hsep
    have hc : ¬ (c = sep) := fun hc => hsep (by simp [hc])
    simp only [List.cons_append, pySplitAux, hc, if_false, List.append_eq]
    rw [ih rest (c :: acc) (fun hm => hsep (by simp [hm]))]
    simp

theorem pyJoin_cons_cons (sep : Char) (x y : PyStr) (ys : List PyStr) :
    pyJoin [sep] (x :: y :: ys) = x ++ sep :: pyJoin [sep] (y :: ys) := by
  simp [pyJoin, List.intersperse_cons_cons]

theorem pySplit_pyJoin (sep : Char) : ∀ (xs : List PyStr), xs ≠ [] →
    (∀ x ∈ xs, sep ∉ x) → pySplit sep (pyJoin [sep] xs) = xs := by
  intro xs
  induction xs with
  | nil => intro h; exact absurd rfl h
  | cons x rest ih =>
    intro _ hsep
    cases rest with
    | nil =>
      simp only [pyJoin, List.intersperse_singleton, List.flatten, List.append_nil]
      unfold pySplit
      rw [pySplitAux_no_sep sep x [] (hsep x (by simp))]
      simp
    | cons y ys =>
      rw [pyJoin_cons_cons]
      unfold pySplit
      rw [pySplitAux_break sep x _ [] (hsep x (by simp))]
      simp only [List.reverse_nil, List.nil_append, List.cons.injEq, true_and]
      exact ih (by simp) (fun z hz => hsep z (by simp [hz]))

theorem mem_pyStrOfInt {c : Char} {i : Int} (hc : c ∈ pyStrOfInt i) :
    c.isDigit = true ∨ c = '-' := by
  unfold pyStrOfInt at hc
  split at hc
  · rcases List.mem_cons.mp hc with rfl | hm
    · exact Or.inr rfl
    · exact Or.inl (by
        have := natDigits_all_digits (-i).toNat
        rw [List.all_eq_true] at this
        exact this c hm)
  · exact Or.inl (by
      have := natDigits_all_digits i.toNat
      rw [List.all_eq_true] at this
      exact this c hc)

theorem pyInt_pyStrOfInt (i : Int) : pyInt (pyStrOfInt i) = .ok i := by
  unfold pyStrOfInt
  split
  · rename_i hneg
    have hne := natDigits_ne_nil (-i).toNat
    have hall := natDigits_all_digits (-i).toNat
    have hval := digitsVal_natDigits (-i).toNat
    cases hd : natDigits (-i).toNat with
    | nil => exact absurd hd hne
    | cons c rest =>
      rw [hd] at hall hval
      simp only [pyInt, if_pos rfl, List.isEmpty_cons, hall, hval, if_false, if_true,
        Bool.false_eq_true]
      congr 1
      omega
  · rename_i hpos
    rw [pyInt_natDigits]
    congr 1
    omega

theorem mem_intersperse_imp {α : Type} {l sep : α} : ∀ {xs : List α},
    l ∈ List.intersperse sep xs → l = sep ∨ l ∈ xs := by
  intro xs
  induction xs with
  | nil => intro h; simp [List.intersperse] at h
  | cons x rest ih =>
    cases rest with
    | nil =>
      intro h
      simp [List.intersperse_singleton] at h
      simp [h]
    | cons y ys =>
      intro h
      rw [List.intersperse_cons_cons] at h
      rcases List.mem_cons.mp h with rfl | h2
      · exact Or.inr (by simp)
      · rcases List.mem_cons.mp h2 with rfl | h3
        · exact Or.inl rfl
        · rcases ih h3 with hs | hm
          · exact Or.inl hs
          · exact Or.inr (by simp [List.mem_cons.mp hm])

theorem notMem_pyJoin {c : Char} {sep : Char} {xs : List PyStr}
    (hsep : ¬ (c = sep)) (hxs : ∀ x ∈ xs, c ∉ x) : c ∉ pyJoin [sep] xs := by
  intro hmem
  unfold pyJoin at hmem
  obtain ⟨l, hl, hcl⟩ := List.mem_flatten.mp hmem
  rcases mem_intersperse_imp hl with rfl | hlx
  · simp at hcl
    exact hsep hcl
  · exact hxs l hlx hcl

theorem notMem_pyStrOfInt {c : Char} (h1 : c.isDigit = false) (h2 : ¬ (c = '-'))
    (i : Int) : c ∉ pyStrOfInt i := by
  intro hm
  rcases mem_pyStrOfInt hm with hd | hd
  · rw [h1] at hd
    exact absurd hd (by decide)
  · exact h2 hd

/-! ## Serialization round-trip and backend comparison (dupliganger/db.py) -/

/-- A SAM field that survives serialization: it contains neither the tab
field delimiter nor the ASCII record separator used between reads. -/
def goodField (s : PyStr) : Prop :=
  DELIM_SAM_FIELD ∉ s ∧ DELIM_SAM_LIST_LMDB ∉ s

/-- A Read whose string fields survive serialization. -/
def goodRead (r : Read) : Prop :=
  goodField r.qname ∧ goodField r.rname ∧ goodField r.mapq ∧ goodField r.cigar

/-- A ReadGroup whose LMDB string form parses back to itself: nonempty with
serializable reads. -/
def rgSerializable (rg : ReadGroup) : Prop :=
  rg ≠ [] ∧ ∀ r ∈ rg, goodRead r

theorem mkRead_reprStr {r : Read} (h : goodRead r) : mkRead (Read.reprStr r) = .ok r := by
  obtain ⟨⟨hq, _⟩, ⟨hr, _⟩, ⟨hm, _⟩, ⟨hc, _⟩⟩ := h
  have hsplit : pySplit DELIM_SAM_FIELD (Read.reprStr r) =
      [r.qname, pyStrOfInt r.flag, r.rname, pyStrOfInt r.pos, r.mapq, r.cigar] := by
    unfold Read.reprStr
    apply pySplit_pyJoin
    · simp
    · intro x hx
      simp only [List.mem_cons, List.not_mem_nil, or_false] at hx
      rcases hx with rfl | rfl | rfl | rfl | rfl | rfl
      · exact hq
      · exact notMem_pyStrOfInt (by decide) (by decide) r.flag
      · exact hr
      · exact notMem_pyStrOfInt (by decide) (by decide) r.pos
      · exact hm
      · exact hc
  simp only [mkRead, hsplit, bind, Except.bind, pyIndex, List.getElem?_cons_zero,
    List.getElem?_cons_succ, pyInt_pyStrOfInt, pure, Except.pure]

theorem reprStr_no_rs {r : Read} (h : goodRead r) :
    DELIM_SAM_LIST_LMDB ∉ Read.reprStr r := by
  obtain ⟨⟨_, hq⟩, ⟨_, hr⟩, ⟨_, hm⟩, ⟨_, hc⟩⟩ := h
  unfold Read.reprStr
  apply notMem_pyJoin (by decide)
  intro x hx
  simp only [List.mem_cons, List.not_mem_nil, or_false] at hx
  rcases hx with rfl | rfl | rfl | rfl | rfl | rfl
  · exact hq
  · exact notMem_pyStrOfInt (by decide) (by decide) r.flag
  · exact hr
  · exact notMem_pyStrOfInt (by decide) (by decide) r.pos
  · exact hm
  · exact hc

theorem mapM_mkRead_reprStr : ∀ (rg : List Read), (∀ r ∈ rg, goodRead r) →
    (rg.map Read.reprStr).mapM mkRead = .ok rg := by
  intro rg
  induction rg with
  | nil => intro _; rfl
  | cons r rest ih =>
    intro hall
    have hr := hall r (by simp)
    have hrest : ∀ x ∈ rest, goodRead x :=
      fun x hx => hall x (List.mem_cons_of_mem r hx)
    simp only [List.map_cons, List.mapM_cons, mkRead_reprStr hr, ih hrest,
      bind, Except.bind, pure, Except.pure]

theorem loadStr_reprStr {rg : ReadGroup} (h : rgSerializable rg) :
    ReadGroup.loadStr (ReadGroup.reprStr rg) = .ok rg := by
  obtain ⟨hne, hall⟩ := h
  unfold ReadGroup.loadStr ReadGroup.reprStr
  rw [pySplit_pyJoin DELIM_SAM_LIST_LMDB (rg.map Read.reprStr)
    (by simpa using hne)
    (by
      intro x hx
      obtain ⟨r, hrm, rfl⟩ := List.mem_map.mp hx
      exact reprStr_no_rs (hall r hrm))]
  exact mapM_mkRead_reprStr rg hall

/-- One operation against the two store shapes of dupliganger/db.py: the
single-object store holding ReadGroups and the bucket store holding string
lists (instantiated with delimiter `DELIM_BUCKET_LIST` as in
build_read_and_loc_dbs.py and dedup.py). -/
inductive StoreOp where
  | oput (k : PyStr) (rg : ReadGroup)
  | oget (k : PyStr)
  | bput (k : PyStr) (items : List PyStr)
  | bappend (k : PyStr) (item : PyStr)
  | bget (k : PyStr)
  deriving DecidableEq, Repr

/-- The value returned by a get operation. -/
inductive StoreObs where
  | oval (rg : Option ReadGroup)
  | bval (items : Option (List PyStr))
  deriving DecidableEq, Repr

/-- State of the memory backend: `SimpleObjectDbDict` and `SimpleBucketDict`
(dupliganger/db.py lines 190-208 and 367-397). -/
structure MemSt where
  objDb : PyDict ReadGroup
  bucketDb : PyDict (List PyStr)
  deriving DecidableEq, Repr

/-- State of the LMDB backend, at the level of the byte strings the Python
wrappers store: `SimpleObjectDbLmdb` keeps `str(item)` under the key and
`SimpleBucketLmdb` keeps the delimiter-joined value (dupliganger/db.py
lines 106-164 and 222-315; latin-1 byte strings are modelled as the
character strings they encode). -/
structure LmdbSt where
  objDb : PyDict PyStr
  bucketDb : PyDict PyStr
  deriving DecidableEq, Repr

/-- Memory-backend semantics of one operation; gets yield an observation. -/
def memStep (s : MemSt) : StoreOp → MemSt × List StoreObs
  | .oput k rg => (⟨dictPut s.objDb k rg, s.bucketDb⟩, [])
  | .oget k => (s, [.oval (dictGet s.objDb k)])
  | .bput k items => (⟨s.objDb, dictPut s.bucketDb k items⟩, [])
  | .bappend k item => (⟨s.objDb, bucketDictAppend s.bucketDb k item⟩, [])
  | .bget k => (s, [.bval (dictGet s.bucketDb k)])

/-- LMDB-backend semantics of one operation.  `SimpleObjectDbLmdb.get` on a
missing key calls `.decode()` on None (AttributeError); `SimpleBucketLmdb.append`
treats an empty stored byte string like an absent key (`if existing:`);
`SimpleBucketLmdb.get` splits the stored bytes on the delimiter. -/
def lmdbStep (s : LmdbSt) : StoreOp → Except PyErr (LmdbSt × List StoreObs)
  | .oput k rg => .ok (⟨dictPut s.objDb k (ReadGroup.reprStr rg), s.bucketDb⟩, [])
  | .oget k =>
      match dictGet s.objDb k with
      | none => .error .attributeError
      | some bytesv =>
          match ReadGroup.loadStr bytesv with
          | .error e => .error e
          | .ok rg => .ok (s, [.oval (some rg)])
  | .bput k items => .ok (⟨s.objDb, dictPut s.bucketDb k
      (pyJoin [DELIM_BUCKET_LIST] items)⟩, [])
  | .bappend k item =>
      match dictGet s.bucketDb k with
      | some existing =>
          if existing.isEmpty then
            .ok (⟨s.objDb, dictPut s.bucketDb k item⟩, [])
          else
            .ok (⟨s.objDb, dictPut s.bucketDb k
              (existing ++ DELIM_BUCKET_LIST :: item)⟩, [])
      | none => .ok (⟨s.objDb, dictPut s.bucketDb k item⟩, [])
  | .bget k =>
      match dictGet s.bucketDb k with
      | none => .ok (s, [.bval none])
      | some bytesv => .ok (s, [.bval (some (pySplit DELIM_BUCKET_LIST bytesv))])

/-- Run a sequence of operations against the memory backend, collecting the
get results. -/
def memRun (s : MemSt) : List StoreOp → MemSt × List StoreObs
  | [] => (s, [])
  | op :: rest =>
      let (s1, o1) := memStep s op
      let (s2, o2) := memRun s1 rest
      (s2, o1 ++ o2)

/-- Run a sequence of operations against the LMDB backend. -/
def lmdbRun (s : LmdbSt) : List StoreOp → Except PyErr (LmdbSt × List StoreObs)
  | [] => .ok (s, [])
  | op :: rest =>
      match lmdbStep s op with
      | .error e => .error e
      | .ok (s1, o1) =>
          match lmdbRun s1 rest with
          | .error e => .error e
          | .ok (s2, o2) => .ok (s2, o1 ++ o2)

/-- Conditions under which an operation behaves identically on both
backends, judged against the current memory state: object values must
serialize faithfully, object gets must hit existing keys, and bucket items
must be nonempty and delimiter-free. -/
def opValid (s : MemSt) : StoreOp → Prop
  | .oput _ rg => rgSerializable rg
  | .oget k => (dictGet s.objDb k).isSome = true
  | .bput _ items => items ≠ [] ∧ ∀ it ∈ items, it ≠ [] ∧ DELIM_BUCKET_LIST ∉ it
  | .bappend _ item => item ≠ [] ∧ DELIM_BUCKET_LIST ∉ item
  | .bget _ => True

/-- Sequential validity of a whole operation list. -/
def opsValid (s : MemSt) : List StoreOp → Prop
  | [] => True
  | op :: rest => opValid s op ∧ opsValid (memStep s op).1 rest


/-- Relation between a memory-backend bucket value and the byte string the
LMDB backend keeps under that key. -/
def bucketRelVal : Option (List PyStr) → Option PyStr → Prop
  | none, lv => lv = none
  | some items, lv => items ≠ [] ∧ (∀ it ∈ items, it ≠ [] ∧ DELIM_BUCKET_LIST ∉ it)
      ∧ lv = some (pyJoin [DELIM_BUCKET_LIST] items)

/-- Simulation relation between the two backends. -/
def stRel (m : MemSt) (l : LmdbSt) : Prop :=
  (∀ k, dictGet l.objDb k = (dictGet m.objDb k).map ReadGroup.reprStr)
  ∧ (∀ k rg, dictGet m.objDb k = some rg → rgSerializable rg)
  ∧ (∀ k, bucketRelVal (dictGet m.bucketDb k) (dictGet l.bucketDb k))

theorem pyJoin_singleton (sep : Char) (x : PyStr) : pyJoin [sep] [x] = x := by
  simp [pyJoin, List.intersperse_singleton]

theorem pyJoin_append_one (sep : Char) : ∀ (xs : List PyStr) (x : PyStr), xs ≠ [] →
    pyJoin [sep] (xs ++ [x]) = pyJoin [sep] xs ++ sep :: x := by
  intro xs
  induction xs with
  | nil => intro x h; exact absurd rfl h
  | cons y ys ih =>
    intro x _
    cases ys with
    | nil => simp [pyJoin_cons_cons, pyJoin_singleton]
    | cons z zs =>
      have h2 := ih x (by simp)
      rw [show (y :: z :: zs) ++ [x] = y :: z :: (zs ++ [x]) from rfl, pyJoin_cons_cons,
        show z :: (zs ++ [x]) = (z :: zs) ++ [x] from rfl, h2, pyJoin_cons_cons]
      simp

theorem pyJoin_ne_nil (sep : Char) : ∀ (xs : List PyStr), xs ≠ [] →
    (∀ x ∈ xs, x ≠ []) → pyJoin [sep] xs ≠ [] := by
  intro xs
  induction xs with
  | nil => intro h; exact absurd rfl h
  | cons y ys _ =>
    intro _ hmem
    cases ys with
    | nil =>
      rw [pyJoin_singleton]
      exact hmem y (by simp)
    | cons z zs =>
      rw [pyJoin_cons_cons]
      have := hmem y (by simp)
      intro hc
      rcases List.append_eq_nil.mp hc with ⟨_, h2⟩
      exact absurd h2 (by simp)

theorem stRel_step {m : MemSt} {l : LmdbSt} (hrel : stRel m l) {op : StoreOp}
    (hop : opValid m op) :
    ∃ l1, lmdbStep l op = .ok (l1, (memStep m op).2) ∧ stRel (memStep m op).1 l1 := by
  obtain ⟨hobj, hser, hbuck⟩ := hrel
  cases op with
  | oput k rg =>
    refine ⟨⟨dictPut l.objDb k (ReadGroup.reprStr rg), l.bucketDb⟩, rfl, ?_, ?_, ?_⟩
    · intro k2
      show dictGet (dictPut l.objDb k (ReadGroup.reprStr rg)) k2
        = (dictGet (dictPut m.objDb k rg) k2).map ReadGroup.reprStr
      by_cases hk : k2 = k
      · subst hk
        rw [dictGet_dictPut_self, dictGet_dictPut_self]
        rfl
      · rw [dictGet_dictPut_other _ _ _ _ hk, dictGet_dictPut_other _ _ _ _ hk, hobj k2]
    · intro k2 rg2 hg
      rw [show (memStep m (StoreOp.oput k rg)).1.objDb = dictPut m.objDb k rg from rfl]
        at hg
      by_cases hk : k2 = k
      · subst hk
        rw [dictGet_dictPut_self] at hg
        cases hg
        exact hop
      · rw [dictGet_dictPut_other _ _ _ _ hk] at hg
        exact hser k2 rg2 hg
    · intro k2
      exact hbuck k2
  | oget k =>
    simp only [opValid, Option.isSome_iff_exists] at hop
    obtain ⟨rg, hg⟩ := hop
    have hl := hobj k
    rw [hg, Option.map_some'] at hl
    have hload := loadStr_reprStr (hser k rg hg)
    refine ⟨l, ?_, hobj, hser, hbuck⟩
    show lmdbStep l (StoreOp.oget k) = .ok (l, (memStep m (StoreOp.oget k)).2)
    simp only [lmdbStep, hl, hload, memStep, hg]
  | bput k items =>
    obtain ⟨hne, hgood⟩ := hop
    refine ⟨⟨l.objDb, dictPut l.bucketDb k (pyJoin [DELIM_BUCKET_LIST] items)⟩,
      rfl, hobj, hser, ?_⟩
    intro k2
    show bucketRelVal (dictGet (dictPut m.bucketDb k items) k2)
      (dictGet (dictPut l.bucketDb k (pyJoin [DELIM_BUCKET_LIST] items)) k2)
    by_cases hk : k2 = k
    · subst hk
      rw [dictGet_dictPut_self, dictGet_dictPut_self]
      exact ⟨hne, hgood, rfl⟩
    · rw [dictGet_dictPut_other _ _ _ _ hk, dictGet_dictPut_other _ _ _ _ hk]
      exact hbuck k2
  | bappend k item =>
    obtain ⟨hne, hfree⟩ := hop
    have hb := hbuck k
    cases hmk : dictGet m.bucketDb k with
    | none =>
      rw [hmk] at hb
      have hln : dictGet l.bucketDb k = none := hb
      refine ⟨⟨l.objDb, dictPut l.bucketDb k item⟩, ?_, hobj, hser, ?_⟩
      · show lmdbStep l (StoreOp.bappend k item)
          = .ok (⟨l.objDb, dictPut l.bucketDb k item⟩, (memStep m (StoreOp.bappend k item)).2)
        simp only [lmdbStep, hln, memStep]
      · intro k2
        show bucketRelVal (dictGet (bucketDictAppend m.bucketDb k item) k2)
          (dictGet (dictPut l.bucketDb k item) k2)
        by_cases hk : k2 = k
        · subst hk
          rw [dictGet_bucketAppend_self, hmk, dictGet_dictPut_self]
          simp only [Option.getD_none, List.nil_append]
          refine ⟨by simp, ?_, by rw [pyJoin_singleton]⟩
          intro it hit
          rw [List.mem_singleton] at hit
          subst hit
          exact ⟨hne, hfree⟩
        · rw [dictGet_bucketAppend_other _ _ _ _ hk, dictGet_dictPut_other _ _ _ _ hk]
          exact hbuck k2
    | some items =>
      rw [hmk] at hb
      obtain ⟨hine, higood, hlval⟩ := hb
      have hjoin_ne : pyJoin [DELIM_BUCKET_LIST] items ≠ [] :=
        pyJoin_ne_nil _ items hine (fun x hx => (higood x hx).1)
      refine ⟨⟨l.objDb, dictPut l.bucketDb k
        (pyJoin [DELIM_BUCKET_LIST] items ++ DELIM_BUCKET_LIST :: item)⟩, ?_, hobj, hser, ?_⟩
      · show lmdbStep l (StoreOp.bappend k item)
          = .ok (⟨l.objDb, dictPut l.bucketDb k
              (pyJoin [DELIM_BUCKET_LIST] items ++ DELIM_BUCKET_LIST :: item)⟩,
            (memStep m (StoreOp.bappend k item)).2)
        simp only [lmdbStep, hlval, memStep]
        rw [if_neg]
        intro hC
        exact hjoin_ne (List.isEmpty_iff.mp hC)
      · intro k2
        show bucketRelVal (dictGet (bucketDictAppend m.bucketDb k item) k2)
          (dictGet (dictPut l.bucketDb k
            (pyJoin [DELIM_BUCKET_LIST] items ++ DELIM_BUCKET_LIST :: item)) k2)
        by_cases hk : k2 = k
        · subst hk
          rw [dictGet_bucketAppend_self, hmk, dictGet_dictPut_self]
          simp only [Option.getD_some]
          refine ⟨by simp, ?_, by rw [pyJoin_append_one _ items item hine]⟩
          intro it hit
          rcases List.mem_append.mp hit with hi1 | hi2
          · exact higood it hi1
          · rw [List.mem_singleton] at hi2
            subst hi2
            exact ⟨hne, hfree⟩
        · rw [dictGet_bucketAppend_other _ _ _ _ hk, dictGet_dictPut_other _ _ _ _ hk]
          exact hbuck k2
  | bget k =>
    have hb := hbuck k
    cases hmk : dictGet m.bucketDb k with
    | none =>
      rw [hmk] at hb
      have hln : dictGet l.bucketDb k = none := hb
      refine ⟨l, ?_, hobj, hser, hbuck⟩
      show lmdbStep l (StoreOp.bget k) = .ok (l, (memStep m (StoreOp.bget k)).2)
      simp only [lmdbStep, hln, memStep, hmk]
    | some items =>
      rw [hmk] at hb
      obtain ⟨hine, higood, hlval⟩ := hb
      refine ⟨l, ?_, hobj, hser, hbuck⟩
      show lmdbStep l (StoreOp.bget k) = .ok (l, (memStep m (StoreOp.bget k)).2)
      simp only [lmdbStep, hlval, memStep, hmk,
        pySplit_pyJoin DELIM_BUCKET_LIST items hine (fun x hx => (higood x hx).2)]

theorem stRel_run {m : MemSt} {l : LmdbSt} (hrel : stRel m l) : ∀ (ops : List StoreOp),
    opsValid m ops →
    ∃ l2, lmdbRun l ops = .ok (l2, (memRun m ops).2) ∧ stRel (memRun m ops).1 l2 := by
  intro ops
  induction ops generalizing m l with
  | nil => intro _; exact ⟨l, rfl, hrel⟩
  | cons op rest ih =>
    intro hv
    obtain ⟨hop, hrest⟩ := hv
    obtain ⟨l1, hstep, hrel1⟩ := stRel_step hrel hop
    obtain ⟨l2, hrun, hrel2⟩ := ih hrel1 hrest
    refine ⟨l2, ?_, ?_⟩
    · show lmdbRun l (op :: rest) = .ok (l2, (memRun m (op :: rest)).2)
      rw [show (memRun m (op :: rest)).2
          = (memStep m op).2 ++ (memRun (memStep m op).1 rest).2 from rfl]
      simp only [lmdbRun, hstep, hrun]
    · show stRel (memRun (memStep m op).1 rest).1 l2
      exact hrel2

instance (rg : ReadGroup) : Decidable (rgSerializable rg) := by
  unfold rgSerializable goodRead goodField
  infer_instance

instance (s : MemSt) (op : StoreOp) : Decidable (opValid s op) := by
  cases op <;> simp only [opValid] <;> infer_instance

instance opsValidDec : (s : MemSt) → (ops : List StoreOp) → Decidable (opsValid s ops)
  | _, [] => Decidable.isTrue trivial
  | s, op :: rest =>
      haveI : Decidable (opsValid (memStep s op).1 rest) :=
        opsValidDec (memStep s op).1 rest
      inferInstanceAs (Decidable (opValid s op ∧ opsValid (memStep s op).1 rest))

theorem stRel_init : stRel ⟨[], []⟩ ⟨[], []⟩ :=
  ⟨fun _ => rfl, fun _ rg hg => absurd hg (by simp [dictGet]), fun _ => rfl⟩

/-- C9 (corrected): starting from empty stores, the in-memory backend
(`SimpleObjectDbDict`/`SimpleBucketDict`) and the LMDB backend
(`SimpleObjectDbLmdb`/`SimpleBucketLmdb`) yield identical get observations for
every operation sequence that stays within the representable domain: bucket
items nonempty and free of the bucket delimiter, object gets only on present
keys, and stored ReadGroups nonempty with fields free of the tab and
record-separator delimiters.  The claim's unconditional version is false: the
LMDB bucket store concatenates items with `DELIM_BUCKET_LIST` and re-splits on
get, so a delimiter-containing item comes back cut in two (see the
counterexample theorem), and an object get on a missing key raises
AttributeError instead of returning None. -/
theorem backend_observational_equivalence (ops : List StoreOp)
    (h : opsValid ⟨[], []⟩ ops) :
    ∃ l2, lmdbRun ⟨[], []⟩ ops = .ok (l2, (memRun ⟨[], []⟩ ops).2) := by
  obtain ⟨l2, hrun, _⟩ := stRel_run stRel_init ops h
  exact ⟨l2, hrun⟩

theorem backend_observational_equivalence_witness :
    opsValid ⟨[], []⟩
      [StoreOp.oput ("k1".toList) [⟨"q".toList, 0, "chr1".toList, 100, "60".toList,
          "8M".toList⟩],
        StoreOp.oget ("k1".toList),
        StoreOp.bput ("loc1".toList) ["x".toList],
        StoreOp.bappend ("loc1".toList) ("y".toList),
        StoreOp.bget ("loc1".toList),
        StoreOp.bget ("loc2".toList)]
    ∧ ∃ l2, lmdbRun ⟨[], []⟩
      [StoreOp.oput ("k1".toList) [⟨"q".toList, 0, "chr1".toList, 100, "60".toList,
          "8M".toList⟩],
        StoreOp.oget ("k1".toList),
        StoreOp.bput ("loc1".toList) ["x".toList],
        StoreOp.bappend ("loc1".toList) ("y".toList),
        StoreOp.bget ("loc1".toList),
        StoreOp.bget ("loc2".toList)]
      = .ok (l2, (memRun ⟨[], []⟩
        [StoreOp.oput ("k1".toList) [⟨"q".toList, 0, "chr1".toList, 100, "60".toList,
            "8M".toList⟩],
          StoreOp.oget ("k1".toList),
          StoreOp.bput ("loc1".toList) ["x".toList],
          StoreOp.bappend ("loc1".toList) ("y".toList),
          StoreOp.bget ("loc1".toList),
          StoreOp.bget ("loc2".toList)]).2) :=
  ⟨by decide, backend_observational_equivalence _ (by decide)⟩

/-- A bucket item containing the delimiter is returned intact by the memory
backend but split in two by the LMDB backend: the unconditional C9 claim
fails. -/
theorem backend_observational_equivalence_counterexample :
    (memRun ⟨[], []⟩ [StoreOp.bput ("loc".toList) ["a,b".toList],
        StoreOp.bget ("loc".toList)]).2
      = [StoreObs.bval (some ["a,b".toList])]
    ∧ lmdbRun ⟨[], []⟩ [StoreOp.bput ("loc".toList) ["a,b".toList],
        StoreOp.bget ("loc".toList)]
      = .ok (⟨[], [("loc".toList, "a,b".toList)]⟩,
          [StoreObs.bval (some ["a".toList, "b".toList])])
    ∧ ([StoreObs.bval (some ["a,b".toList])]
        ≠ [StoreObs.bval (some ["a".toList, "b".toList])]) :=
  ⟨rfl, rfl, by decide⟩

/-! ## Duplicate identification and resolution (superdeduper/dedup.py)

The repository's superdeduper/constants.py lacks the UMI list, SAM-tag and
report-metric constants that dedup.py star-imports; they are modelled on the
dupliganger variant shipped in the repository (src/dupliganger/constants.py),
which the spec describes.  dedup.py line 388 references
LOG_NUM_UNIQUE_UMI_PAIR_LOCATION_COMBINATIONS, also absent; it is modelled as
the dupliganger metric name for unique UMI/location combinations. -/

def UMIS_BIOO : List PyStr :=
  ["AACGCCAT", "AAGGTACG", "AATTCCGG", "ACACAGAG", "ACACTCAG",
   "ACACTGTG", "ACAGGACA", "ACCTGTAG", "ACGAAGGT", "ACGACTTG", "ACGTCAAC",
   "ACGTCATG", "ACTGTCAG", "ACTGTGAC", "AGACACTC", "AGAGGAGA", "AGCATCGT",
   "AGCATGGA", "AGCTACCA", "AGCTCTAG", "AGGACAAC", "AGGACATG", "AGGTTGCT",
   "AGTCGAGA", "AGTGCTGT", "ATAAGCGG", "ATCCATGG", "ATCGAACC", "ATCGCGTA",
   "ATCGTTGG", "CAACGATC", "CAACGTTG", "CAACTGGT", "CAAGTCGT", "CACACACA",
   "CAGTACTG", "CATCAGCA", "CATCGTTC", "CCAAGGTT", "CCTAGCTT", "CGATTACG",
   "CGCCTATT", "CGTTCCAT", "CGTTGGAT", "CTACGTTC", "CTACTCGT", "CTAGAGGA",
   "CTAGGAAG", "CTAGGTAC", "CTCAGTCT", "CTGACTGA", "CTGAGTGT", "CTGATGTG",
   "CTGTTCAC", "CTTCGTTG", "GAACAGGT", "GAAGACCA", "GAAGTGCA", "GACATGAG",
   "GAGAAGAG", "GAGAAGTC", "GATCCTAG", "GATGTCGT", "GCCGATAT", "GCCGATTA",
   "GCGGTATT", "GGAATTGG", "GGATAACG", "GGCCTAAT", "GGCGTATT", "GTCTTGTC",
   "GTGATGAG", "GTGATGTC", "GTGTACTG", "GTGTAGTC", "GTTCACCT", "GTTCTGCT",
   "GTTGTCGA", "TACGAACC", "TAGCAAGG", "TAGCTAGC", "TAGGTTCG", "TATAGCGC",
   "TCAGGACT", "TCCACATC", "TCGACTTC", "TCGTAGGT", "TCGTCATC", "TGAGACTC",
   "TGAGAGTG", "TGAGTGAG", "TGCTTGGA", "TGGAGTAG", "TGTGTGTG", "TTCGCCTA",
   "TTCGTTCG"].map String.toList

def SAM_TAG_READ1_HAMMING_DIST_UMI : PyStr := "d1:i:".toList

def SAM_TAG_READ2_HAMMING_DIST_UMI : PyStr := "d2:i:".toList

def SAM_TAG_READ1_NUM_CLOSEST_UMIS : PyStr := "n1:i:".toList

def SAM_TAG_READ2_NUM_CLOSEST_UMIS : PyStr := "n2:i:".toList

def SAM_TAG_READ1_CLOSEST_UMI : PyStr := "c1:i:".toList

def SAM_TAG_READ2_CLOSEST_UMI : PyStr := "c2:i:".toList

def LOG_NUM_DUP_GROUPS : PyStr := "num_dup_groups".toList

def LOG_NUM_READ_GROUPS_WITH_UMI_ERROR : PyStr :=
  "num_read_groups_with_umi_error".toList

def LOG_NUM_READ_GROUPS_WITH_UMI_ERROR_DIST : PyStr :=
  "num_read_groups_with_umi_error_dist".toList

def LOG_NUM_READ_GROUPS_REJECTED_DUE_TO_UMI_ERROR_DIST : PyStr :=
  "num_read_groups_rejected_due_to_umi_error_dist".toList

def LOG_NUM_UNIQUE_UMI_PAIR_LOCATION_COMBINATIONS : PyStr :=
  "num_unique_umi_and_location_combinations".toList

/-- Python `report_db[metric] += n`: KeyError when the metric is absent. -/
def reportAdd (db : PyDict Int) (k : PyStr) (n : Int) : Except PyErr (PyDict Int) :=
  match dictGet db k with
  | none => .error .keyError
  | some v => .ok (dictPut db k (v + n))

/-- Hamming distance as computed by `distance.hamming` (the `distance`
package): number of differing positions, ValueError on unequal lengths. -/
def hamming (a b : PyStr) : Except PyErr Int :=
  if a.length = b.length then
    .ok (((a.zip b).filter (fun p => ¬(p.1 = p.2))).length : Int)
  else .error .valueError

/-- Inner loop of `umi_bioo_report` (dedup.py lines 230-234) at one candidate
distance: the known UMIs whose Hamming distance to the sequenced UMI equals
`curr`, in list order. -/
def umiCandidatesAt (seq_umi : PyStr) (curr : Int) : List PyStr → Except PyErr (List PyStr)
  | [] => .ok []
  | umi :: rest => do
      let d ← hamming umi seq_umi
      let tail ← umiCandidatesAt seq_umi curr rest
      if d = curr then return umi :: tail else return tail

/-- Outer loop of `umi_bioo_report` (dedup.py lines 229-237): try distances in
order, stopping at the first distance with at least one candidate; 999 is the
infinity sentinel when no distance in range matches. -/
def umiSearch (seq_umi : PyStr) : List Int → Except PyErr (Int × List PyStr)
  | [] => .ok (999, [])
  | curr :: rest => do
      let cands ← umiCandidatesAt seq_umi curr UMIS_BIOO
      if cands.isEmpty then umiSearch seq_umi rest
      else return (curr, cands)

/-- `umi_bioo_report(seq_umi)` (dedup.py lines 208-247): exact membership gives
distance 0, otherwise candidate distances 1 through 8 are scanned in order. -/
def umi_bioo_report (seq_umi : PyStr) : Except PyErr (Int × List PyStr) :=
  if seq_umi ∈ UMIS_BIOO then .ok (0, [seq_umi])
  else umiSearch seq_umi [1, 2, 3, 4, 5, 6, 7, 8]

/-- Mutable state threaded through `process_location_pe_bioo_1nt`: the report
metrics, the UMI-error store (qname-keyed pairs of tag strings) and the
partition of ReadGroupIds by UMI pair (`rg_ids_by_umi_pair`). -/
structure LocSt where
  report_db : PyDict Int
  umi_error_db : PyDict (PyStr × PyStr)
  partition : PyDict (List PyStr)
  deriving DecidableEq, Repr

/-- Lines 313-319 of dedup.py: parse the two sequenced UMIs out of the first
read's annotated qname (`name-UMI1^UMI2;trims`).  A Python tuple unpacking of
a split that does not yield exactly two pieces raises ValueError. -/
def groupUmis (read_group : ReadGroup) : Except PyErr (PyStr × PyStr) := do
  let r0 ← pyIndex read_group 0
  let anno ← pyIndex (pySplit DELIM_ANNO r0.qname) 1
  let umis ← pyIndex (pySplit DELIM_ANNO_TYPE anno) 0
  match pySplit DELIM_ANNO_READ_PAIR umis with
  | [umi1, umi2] => return (umi1, umi2)
  | _ => .error .valueError

/-- One iteration of the `for read_group_id, read_group in iteritems(...)`
loop of `process_location_pe_bioo_1nt` (dedup.py lines 306-380).  The
ReadGroup class of superdeduper/sam.py defines no `name` attribute; the
`read_group.name` key of line 355 is modelled by the dupliganger ReadGroup
name property (first read's qname), which is also the only qname at this
group.  The closest-UMI tags use the constants' `c1:i:`/`c2:i:` prefixes. -/
def process_one_read_group (reject_umi_errors correct_umis : Bool) (st : LocSt)
    (read_group_id : PyStr) (read_group : ReadGroup) : Except PyErr LocSt := do
  let (umi1, umi2) ← groupUmis read_group
  let (dist1, potential_umis1) ← umi_bioo_report umi1
  let (dist2, potential_umis2) ← umi_bioo_report umi2
  let len_potential_umis1 : Int := potential_umis1.length
  let len_potential_umis2 : Int := potential_umis2.length
  if 1 ≤ dist1 ∨ 1 ≤ dist2 then do
    let sam_tags1 := SAM_TAG_READ1_HAMMING_DIST_UMI ++ pyStrOfInt dist1
      ++ DELIM_SAM_FIELD :: (SAM_TAG_READ1_NUM_CLOSEST_UMIS
        ++ pyStrOfInt len_potential_umis1)
    let sam_tags2 := SAM_TAG_READ2_HAMMING_DIST_UMI ++ pyStrOfInt dist2
      ++ DELIM_SAM_FIELD :: (SAM_TAG_READ2_NUM_CLOSEST_UMIS
        ++ pyStrOfInt len_potential_umis2)
    let r ←
      if dist1 ≤ 1 ∧ len_potential_umis1 ≤ 1 ∧ dist2 ≤ 1 ∧ len_potential_umis2 ≤ 1 then do
        let r1 ←
          if dist1 = 1 ∧ len_potential_umis1 = 1 then do
            let c ← pyIndex potential_umis1 0
            pure (sam_tags1 ++ DELIM_SAM_FIELD :: (SAM_TAG_READ1_CLOSEST_UMI ++ c),
              if correct_umis then c else umi1)
          else pure (sam_tags1, umi1)
        let r2 ←
          if dist2 = 1 ∧ len_potential_umis2 = 1 then do
            let c ← pyIndex potential_umis2 0
            pure (sam_tags2 ++ DELIM_SAM_FIELD :: (SAM_TAG_READ2_CLOSEST_UMI ++ c),
              if correct_umis then c else umi2)
          else pure (sam_tags2, umi2)
        pure (r1.1, r1.2, r2.1, r2.2)
      else pure (sam_tags1, umi1, sam_tags2, umi2)
    let (tags1, umi1f, tags2, umi2f) := r
    let name ← ReadGroup.nameOf read_group
    let umi_error_db2 := dictPut st.umi_error_db name (tags1, tags2)
    let dist := if dist1 > dist2 then dist1 else dist2
    let rdb1 ← reportAdd st.report_db
      (LOG_NUM_READ_GROUPS_WITH_UMI_ERROR_DIST ++ pyStrOfInt dist) 1
    let rdb2 ← reportAdd rdb1 LOG_NUM_READ_GROUPS_WITH_UMI_ERROR 1
    if reject_umi_errors then do
      let rdb3 ← reportAdd rdb2
        (LOG_NUM_READ_GROUPS_REJECTED_DUE_TO_UMI_ERROR_DIST ++ pyStrOfInt dist) 1
      return ⟨rdb3, umi_error_db2, st.partition⟩
    else do
      let umi_pair := pyJoin [','] [umi1f, umi2f]
      return ⟨rdb2, umi_error_db2,
        bucketDictAppend st.partition umi_pair read_group_id⟩
  else do
    let umi_pair := pyJoin [','] [umi1, umi2]
    return ⟨st.report_db, st.umi_error_db,
      bucketDictAppend st.partition umi_pair read_group_id⟩

/-- The full `for` loop of `process_location_pe_bioo_1nt` over the location's
ReadGroups in dict order. -/
def processLocLoop (reject_umi_errors correct_umis : Bool) :
    LocSt → List (PyStr × ReadGroup) → Except PyErr LocSt
  | st, [] => .ok st
  | st, (rid, rg) :: rest => do
      let st1 ← process_one_read_group reject_umi_errors correct_umis st rid rg
      processLocLoop reject_umi_errors correct_umis st1 rest

/-- `process_location_pe_bioo_1nt` (dedup.py lines 249-396): run the loop from
an empty partition, bump the unique-combination metric by the number of UMI
pairs seen, and return only the DupGroups with more than one member (also
counted). -/
def process_location_pe_bioo_1nt (reject_umi_errors correct_umis : Bool)
    (report_db : PyDict Int) (umi_error_db : PyDict (PyStr × PyStr))
    (read_groups : List (PyStr × ReadGroup)) :
    Except PyErr (LocSt × List (List PyStr)) := do
  let st ← processLocLoop reject_umi_errors correct_umis
    ⟨report_db, umi_error_db, []⟩ read_groups
  let dup_groups := st.partition.map Prod.snd
  let rdb1 ← reportAdd st.report_db
    LOG_NUM_UNIQUE_UMI_PAIR_LOCATION_COMBINATIONS (dup_groups.length : Int)
  let dup_groups_larger_than_one_member := dup_groups.filter (fun dg => 1 < dg.length)
  let rdb2 ← reportAdd rdb1 LOG_NUM_DUP_GROUPS
    (dup_groups_larger_than_one_member.length : Int)
  return (⟨rdb2, st.umi_error_db, st.partition⟩, dup_groups_larger_than_one_member)

/-- Arena model of the DupGroup objects and `dup_group_db`: `groups` holds the
distinct DupGroup objects ever created (each a set of ReadGroupIds in insertion
order), `db` maps each ReadGroupId to the index of its DupGroup object. -/
structure DupArena where
  groups : List (List PyStr)
  db : PyDict Nat
  deriving DecidableEq, Repr

/-- One iteration of `put_dup_groups` (dedup.py lines 420-437).  Line 423
builds `set([dup_group_db[rg_id] ...])` whose elements are DupGroup objects;
`DupGroup` subclasses `set` (dedup.py line 971) and is therefore unhashable,
so constructing that set raises TypeError as soon as the comprehension is
nonempty, i.e. as soon as any member already belongs to a DupGroup.  (Were it
reached, line 431's `existing[0]` would also raise TypeError on a set, and
line 426's `raise(Class, msg)` raises TypeError in Python 3 rather than
CannotContinueException.)  Only the fresh-group branch can execute. -/
def put_one_dup_group (st : DupArena) (dup_group : List PyStr) :
    Except PyErr DupArena :=
  if dup_group.any (fun rg_id => (dictGet st.db rg_id).isSome) then
    .error .typeError
  else
    let idx := st.groups.length
    let grp := dup_group.foldl (fun g rg_id => if rg_id ∈ g then g else g ++ [rg_id]) []
    let db2 := dup_group.foldl (fun d rg_id => dictPut d rg_id idx) st.db
    .ok ⟨st.groups ++ [grp], db2⟩

/-- `put_dup_groups(dup_group_db, dup_groups)` (dedup.py lines 398-437). -/
def put_dup_groups (st : DupArena) : List (List PyStr) → Except PyErr DupArena
  | [] => .ok st
  | g :: rest => do
      let st1 ← put_one_dup_group st g
      put_dup_groups st1 rest

/-- C3: put_dup_groups cannot maintain the one-DupGroup-per-ReadGroupId
invariant as documented: the moment a new duplicate group shares any member
with an existing DupGroup the function raises TypeError (DupGroup subclasses
set and is unhashable, so the `set([...])` of line 423 fails), instead of
merging into the existing object or raising CannotContinueException; only
groups fully disjoint from the store succeed. -/
theorem put_dup_groups_merge_raises :
    put_dup_groups ⟨[], []⟩ [["a".toList, "b".toList], ["b".toList, "c".toList]]
      = .error .typeError
    ∧ put_dup_groups ⟨[], []⟩ [["a".toList, "b".toList]]
      = .ok ⟨[["a".toList, "b".toList]], [("a".toList, 0), ("b".toList, 0)]⟩ :=
  ⟨rfl, rfl⟩

/-- Python 3 `sorted()` over ReadGroup objects: the superdeduper ReadGroup
(sam.py line 209, a `CustomList`) defines no ordering methods, so any
comparison raises TypeError; `sorted` compares elements exactly when the list
has two or more. -/
def pySortReadGroups (rgs : List ReadGroup) : Except PyErr (List ReadGroup) :=
  if rgs.length ≤ 1 then .ok rgs else .error .typeError

/-- Retrieval of the member ReadGroups (dedup.py line 196's generator). -/
def getReadGroups (fp_get_read_group : PyStr → Except PyErr ReadGroup) :
    List PyStr → Except PyErr (List ReadGroup)
  | [] => .ok []
  | rid :: rest => do
      let rg ← fp_get_read_group rid
      let tail ← getReadGroups fp_get_read_group rest
      return rg :: tail

/-- `choose_winner_and_losers_random_fixed_seed` (dedup.py lines 180-201):
fetch members, sort them, pop a random index as winner, keep the rest as
losers.  `randrange` stands for the seeded `random.randrange`. -/
def choose_winner_and_losers_random_fixed_seed
    (randrange : Nat → Nat → Nat) (fp_get_read_group : PyStr → Except PyErr ReadGroup)
    (dup_group : List PyStr) : Except PyErr (ReadGroup × List ReadGroup) := do
  let members ← getReadGroups fp_get_read_group dup_group
  let sorted_group ← pySortReadGroups members
  let winner_idx := randrange 0 sorted_group.length
  let winner ← pyIndex sorted_group winner_idx
  return (winner, sorted_group.eraseIdx winner_idx)

/-- C4: winner selection is unreachable for every real DupGroup.  DupGroups
reaching selection have at least two members (size-one groups are filtered in
process_location_pe_bioo_1nt), and sorting two or more ReadGroups raises
TypeError under Python 3 because ReadGroup defines no ordering, so no winner
is ever chosen and nothing is written to the losers store, whatever the seeded
generator would have returned. -/
theorem choose_winner_sorted_raises :
    ∀ (randrange : Nat → Nat → Nat) (rg1 rg2 : ReadGroup),
      choose_winner_and_losers_random_fixed_seed randrange
        (fun rid => if rid = "0000000001".toList then .ok rg1 else .ok rg2)
        ["0000000001".toList, "0000000002".toList] = .error .typeError := by
  intro randrange rg1 rg2
  rfl

theorem umi_report_mem {u : PyStr} (h : u ∈ UMIS_BIOO) :
    umi_bioo_report u = .ok (0, [u]) := by
  unfold umi_bioo_report
  rw [if_pos h]

/-- C6 (corrected): UMI substitution is jointly gated on both mates, and the
closest-UMI tag does not depend on the correction flag.  (a) With mate 1 at
Hamming distance 1 from a unique known UMI and mate 2 exact, the partition key
substitutes mate 1's UMI exactly when correction is enabled, while the
`c1:i:` tag is always attached; (b) with the same mate 1 but mate 2 failing
the joint condition (distance above 1 or ambiguous), mate 1 is never
substituted and no closest-UMI tag is attached, even with correction
enabled.  This refutes the per-mate reading of the claim: correction of one
mate requires `dist<=1` and a unique candidate on the other mate as well, and
the tag appears whenever the joint condition holds, corrected or not. -/
theorem umi_correction_joint_gated :
    (∀ (correct : Bool) (st : LocSt) (rid : PyStr) (rg : ReadGroup)
        (umi1 umi2 c1 nm : PyStr) (rdb1 rdb2 : PyDict Int),
      groupUmis rg = .ok (umi1, umi2) →
      umi_bioo_report umi1 = .ok (1, [c1]) →
      umi2 ∈ UMIS_BIOO →
      ReadGroup.nameOf rg = .ok nm →
      reportAdd st.report_db
        (LOG_NUM_READ_GROUPS_WITH_UMI_ERROR_DIST ++ pyStrOfInt 1) 1 = .ok rdb1 →
      reportAdd rdb1 LOG_NUM_READ_GROUPS_WITH_UMI_ERROR 1 = .ok rdb2 →
      process_one_read_group false correct st rid rg
        = .ok ⟨rdb2,
            dictPut st.umi_error_db nm
              (SAM_TAG_READ1_HAMMING_DIST_UMI ++ pyStrOfInt 1
                ++ DELIM_SAM_FIELD :: (SAM_TAG_READ1_NUM_CLOSEST_UMIS ++ pyStrOfInt 1)
                ++ DELIM_SAM_FIELD :: (SAM_TAG_READ1_CLOSEST_UMI ++ c1),
               SAM_TAG_READ2_HAMMING_DIST_UMI ++ pyStrOfInt 0
                ++ DELIM_SAM_FIELD :: (SAM_TAG_READ2_NUM_CLOSEST_UMIS ++ pyStrOfInt 1)),
            bucketDictAppend st.partition
              (pyJoin [','] [if correct then c1 else umi1, umi2]) rid⟩)
    ∧ (∀ (correct : Bool) (st : LocSt) (rid : PyStr) (rg : ReadGroup)
        (umi1 umi2 c1 nm : PyStr) (d2 : Int) (p2 : List PyStr) (rdb1 rdb2 : PyDict Int),
      groupUmis rg = .ok (umi1, umi2) →
      umi_bioo_report umi1 = .ok (1, [c1]) →
      umi_bioo_report umi2 = .ok (d2, p2) →
      ¬(d2 ≤ 1 ∧ (p2.length : Int) ≤ 1) →
      ReadGroup.nameOf rg = .ok nm →
      reportAdd st.report_db
        (LOG_NUM_READ_GROUPS_WITH_UMI_ERROR_DIST
          ++ pyStrOfInt (if (1 : Int) > d2 then 1 else d2)) 1 = .ok rdb1 →
      reportAdd rdb1 LOG_NUM_READ_GROUPS_WITH_UMI_ERROR 1 = .ok rdb2 →
      process_one_read_group false correct st rid rg
        = .ok ⟨rdb2,
            dictPut st.umi_error_db nm
              (SAM_TAG_READ1_HAMMING_DIST_UMI ++ pyStrOfInt 1
                ++ DELIM_SAM_FIELD :: (SAM_TAG_READ1_NUM_CLOSEST_UMIS ++ pyStrOfInt 1),
               SAM_TAG_READ2_HAMMING_DIST_UMI ++ pyStrOfInt d2
                ++ DELIM_SAM_FIELD :: (SAM_TAG_READ2_NUM_CLOSEST_UMIS
                  ++ pyStrOfInt (p2.length : Int))),
            bucketDictAppend st.partition (pyJoin [','] [umi1, umi2]) rid⟩) := by
  constructor
  · intro correct st rid rg umi1 umi2 c1 nm rdb1 rdb2 hg h1 h2 hname hr1 hr2
    simp only [process_one_read_group, hg, h1, umi_report_mem h2, hname, hr1, hr2,
      Except.bind, bind, pure, Except.pure, pyIndex, List.length_cons, List.length_nil]
    norm_num
    rw [hr1]
    simp only [hr2]
  · intro correct st rid rg umi1 umi2 c1 nm d2 p2 rdb1 rdb2 hg h1 h2 hbad hname hr1 hr2
    simp only [process_one_read_group, hg, h1, h2, hname, hr1, hr2,
      Except.bind, bind, pure, pyIndex, List.length_cons, List.length_nil]
    rw [if_pos (Or.inl (by norm_num)), if_neg (by
      intro hc
      exact hbad ⟨hc.2.2.1, hc.2.2.2⟩)]
    simp only [hname, hr1, hr2, Except.bind, bind, pure, Except.pure]
    norm_num

set_option maxRecDepth 100000 in
theorem umi_correction_joint_gated_witness :
    process_one_read_group false false
      ⟨[("num_read_groups_with_umi_error_dist1".toList, 0),
        ("num_read_groups_with_umi_error_dist2".toList, 0),
        ("num_read_groups_with_umi_error".toList, 0)], [], []⟩
      "0000000001".toList
      [⟨"r1-AACGCCAA^AAGGTACG;3^4".toList, 0, "chr1".toList, 100, "60".toList, "8M".toList⟩]
      = .ok ⟨[("num_read_groups_with_umi_error_dist1".toList, 1),
          ("num_read_groups_with_umi_error_dist2".toList, 0),
          ("num_read_groups_with_umi_error".toList, 1)],
        [("r1-AACGCCAA^AAGGTACG;3^4".toList,
          ("d1:i:1\tn1:i:1\tc1:i:AACGCCAT".toList, "d2:i:0\tn2:i:1".toList))],
        [("AACGCCAA,AAGGTACG".toList, ["0000000001".toList])]⟩
    ∧ process_one_read_group false true
      ⟨[("num_read_groups_with_umi_error_dist1".toList, 0),
        ("num_read_groups_with_umi_error_dist2".toList, 0),
        ("num_read_groups_with_umi_error".toList, 0)], [], []⟩
      "0000000001".toList
      [⟨"r1-AACGCCAA^TTGGTACG;3^4".toList, 0, "chr1".toList, 100, "60".toList, "8M".toList⟩]
      = .ok ⟨[("num_read_groups_with_umi_error_dist1".toList, 0),
          ("num_read_groups_with_umi_error_dist2".toList, 1),
          ("num_read_groups_with_umi_error".toList, 1)],
        [("r1-AACGCCAA^TTGGTACG;3^4".toList,
          ("d1:i:1\tn1:i:1".toList, "d2:i:2\tn2:i:3".toList))],
        [("AACGCCAA,TTGGTACG".toList, ["0000000001".toList])]⟩ := by
  constructor
  · exact umi_correction_joint_gated.1 false
      ⟨[("num_read_groups_with_umi_error_dist1".toList, 0),
        ("num_read_groups_with_umi_error_dist2".toList, 0),
        ("num_read_groups_with_umi_error".toList, 0)], [], []⟩
      "0000000001".toList
      [⟨"r1-AACGCCAA^AAGGTACG;3^4".toList, 0, "chr1".toList, 100, "60".toList, "8M".toList⟩]
      "AACGCCAA".toList "AAGGTACG".toList "AACGCCAT".toList
      "r1-AACGCCAA^AAGGTACG;3^4".toList
      [("num_read_groups_with_umi_error_dist1".toList, 1),
       ("num_read_groups_with_umi_error_dist2".toList, 0),
       ("num_read_groups_with_umi_error".toList, 0)]
      [("num_read_groups_with_umi_error_dist1".toList, 1),
       ("num_read_groups_with_umi_error_dist2".toList, 0),
       ("num_read_groups_with_umi_error".toList, 1)]
      rfl rfl (by decide) rfl rfl rfl
  · exact umi_correction_joint_gated.2 true
      ⟨[("num_read_groups_with_umi_error_dist1".toList, 0),
        ("num_read_groups_with_umi_error_dist2".toList, 0),
        ("num_read_groups_with_umi_error".toList, 0)], [], []⟩
      "0000000001".toList
      [⟨"r1-AACGCCAA^TTGGTACG;3^4".toList, 0, "chr1".toList, 100, "60".toList, "8M".toList⟩]
      "AACGCCAA".toList "TTGGTACG".toList "AACGCCAT".toList
      "r1-AACGCCAA^TTGGTACG;3^4".toList
      2 ["AAGGTACG".toList, "TAGGTTCG".toList, "TTCGTTCG".toList]
      [("num_read_groups_with_umi_error_dist1".toList, 0),
       ("num_read_groups_with_umi_error_dist2".toList, 1),
       ("num_read_groups_with_umi_error".toList, 0)]
      [("num_read_groups_with_umi_error_dist1".toList, 0),
       ("num_read_groups_with_umi_error_dist2".toList, 1),
       ("num_read_groups_with_umi_error".toList, 1)]
      rfl rfl rfl (by decide) rfl rfl rfl

set_option maxRecDepth 100000 in
/-- A mate at Hamming distance 1 from exactly one known UMI is not substituted
when the other mate fails the joint condition, even with correction enabled
(first conjunct: the partition key keeps the sequenced `AACGCCAA`); and the
`c1:i:` closest-UMI tag is recorded even with correction disabled (second
conjunct). -/
theorem umi_correction_per_mate_claim_false :
    (umi_bioo_report "AACGCCAA".toList = .ok (1, ["AACGCCAT".toList])
    ∧ process_one_read_group false true
      ⟨[("num_read_groups_with_umi_error_dist1".toList, 0),
        ("num_read_groups_with_umi_error_dist2".toList, 0),
        ("num_read_groups_with_umi_error".toList, 0)], [], []⟩
      "0000000002".toList
      [⟨"r2-AACGCCAA^TTGGTACG;3^4".toList, 16, "chr2".toList, 200, "60".toList, "8M".toList⟩]
      = .ok ⟨[("num_read_groups_with_umi_error_dist1".toList, 0),
          ("num_read_groups_with_umi_error_dist2".toList, 1),
          ("num_read_groups_with_umi_error".toList, 1)],
        [("r2-AACGCCAA^TTGGTACG;3^4".toList,
          ("d1:i:1\tn1:i:1".toList, "d2:i:2\tn2:i:3".toList))],
        [("AACGCCAA,TTGGTACG".toList, ["0000000002".toList])]⟩)
    ∧ (process_one_read_group false false
      ⟨[("num_read_groups_with_umi_error_dist1".toList, 0),
        ("num_read_groups_with_umi_error_dist2".toList, 0),
        ("num_read_groups_with_umi_error".toList, 0)], [], []⟩
      "0000000002".toList
      [⟨"r2-AACGCCAA^AAGGTACG;3^4".toList, 16, "chr2".toList, 200, "60".toList, "8M".toList⟩]
      = .ok ⟨[("num_read_groups_with_umi_error_dist1".toList, 1),
          ("num_read_groups_with_umi_error_dist2".toList, 0),
          ("num_read_groups_with_umi_error".toList, 1)],
        [("r2-AACGCCAA^AAGGTACG;3^4".toList,
          ("d1:i:1\tn1:i:1\tc1:i:AACGCCAT".toList, "d2:i:0\tn2:i:1".toList))],
        [("AACGCCAA,AAGGTACG".toList, ["0000000002".toList])]⟩
    ∧ List.IsInfix SAM_TAG_READ1_CLOSEST_UMI "d1:i:1\tn1:i:1\tc1:i:AACGCCAT".toList) :=
  ⟨⟨rfl, rfl⟩, rfl, by decide⟩

theorem umiCandidatesAt_ok (u : PyStr) (curr : Int) : ∀ (us : List PyStr),
    (∀ m ∈ us, m.length = u.length) →
    ∃ cands, umiCandidatesAt u curr us = .ok cands := by
  intro us
  induction us with
  | nil => intro _; exact ⟨[], rfl⟩
  | cons m rest ih =>
    intro hall
    obtain ⟨tail, htail⟩ := ih (fun x hx => hall x (List.mem_cons_of_mem m hx))
    have hm : hamming m u = .ok ((((m.zip u).filter (fun p => ¬(p.1 = p.2))).length : Int)) := by
      unfold hamming
      rw [if_pos (hall m (List.mem_cons_self m rest))]
    refine ⟨if (((m.zip u).filter (fun p => ¬(p.1 = p.2))).length : Int) = curr
      then m :: tail else tail, ?_⟩
    simp only [umiCandidatesAt, hm, htail, Except.bind, bind, pure, Except.pure]
    split <;> rfl


theorem umiSearch_dist (u : PyStr) : ∀ (ds : List Int) (d : Int) (p : List PyStr),
    umiSearch u ds = .ok (d, p) → d ∈ ds ∨ d = 999 := by
  intro ds
  induction ds with
  | nil =>
    intro d p h
    right
    simp only [umiSearch] at h
    cases h
    rfl
  | cons curr rest ih =>
    intro d p h
    simp only [umiSearch, Except.bind, bind] at h
    cases hc : umiCandidatesAt u curr UMIS_BIOO with
    | error e =>
      simp only [hc] at h
      cases h
    | ok cands =>
      simp only [hc] at h
      by_cases he : cands.isEmpty
      · rw [if_pos he] at h
        rcases ih d p h with h1 | h2
        · exact Or.inl (List.mem_cons_of_mem curr h1)
        · exact Or.inr h2
      · rw [if_neg he] at h
        simp only [pure, Except.pure, Except.ok.injEq, Prod.mk.injEq] at h
        exact Or.inl (h.1 ▸ List.mem_cons_self curr rest)

theorem umi_report_dist_nonneg {u : PyStr} {d : Int} {p : List PyStr}
    (h : umi_bioo_report u = .ok (d, p)) : 0 ≤ d := by
  unfold umi_bioo_report at h
  by_cases hm : u ∈ UMIS_BIOO
  · rw [if_pos hm] at h
    cases h
    exact le_refl 0
  · rw [if_neg hm] at h
    rcases umiSearch_dist u _ d p h with hd | hd
    · simp only [List.mem_cons, List.not_mem_nil, or_false] at hd
      rcases hd with h1 | h1 | h1 | h1 | h1 | h1 | h1 | h1 <;> omega
    · omega

theorem mem_flatten_bucketDictAppend {x v : PyStr} (k : PyStr) :
    ∀ (d : PyDict (List PyStr)),
    x ∈ ((bucketDictAppend d k v).map Prod.snd).flatten →
    x ∈ (d.map Prod.snd).flatten ∨ x = v := by
  intro d
  induction d with
  | nil =>
    intro h
    simp only [bucketDictAppend, List.map_cons, List.map_nil, List.flatten_cons,
      List.flatten_nil, List.append_nil, List.mem_singleton] at h
    exact Or.inr h
  | cons kv rest ih =>
    intro h
    simp only [bucketDictAppend] at h
    by_cases hk : kv.1 = k
    · rw [if_pos hk] at h
      simp only [List.map_cons, List.flatten_cons, List.mem_append,
        List.mem_singleton] at h
      rcases h with (ha | hb) | h2
      · exact Or.inl (by
          simp only [List.map_cons, List.flatten_cons, List.mem_append]
          exact Or.inl ha)
      · exact Or.inr hb
      · exact Or.inl (by
          simp only [List.map_cons, List.flatten_cons, List.mem_append]
          exact Or.inr h2)
    · rw [if_neg hk] at h
      simp only [List.map_cons, List.flatten_cons, List.mem_append] at h
      rcases h with h1 | h2
      · exact Or.inl (by
          simp only [List.map_cons, List.flatten_cons, List.mem_append]
          exact Or.inl h1)
      · rcases ih h2 with ha | hb
        · exact Or.inl (by
            simp only [List.map_cons, List.flatten_cons, List.mem_append]
            exact Or.inr ha)
        · exact Or.inr hb

theorem process_one_partition_shape (correct : Bool) (st : LocSt) (rid : PyStr)
    (rg : ReadGroup) (st' : LocSt)
    (h : process_one_read_group true correct st rid rg = .ok st') :
    st'.partition = st.partition ∨
    (∃ key, st'.partition = bucketDictAppend st.partition key rid ∧
      ∃ u1 u2 p1 p2, groupUmis rg = .ok (u1, u2) ∧ umi_bioo_report u1 = .ok (0, p1)
        ∧ umi_bioo_report u2 = .ok (0, p2)) := by
  simp only [process_one_read_group, Except.bind, bind, pure, Except.pure] at h
  cases hgu : groupUmis rg with
  | error e =>
    simp only [hgu] at h
    cases h
  | ok uv =>
    obtain ⟨u1, u2⟩ := uv
    simp only [hgu] at h
    cases hd1 : umi_bioo_report u1 with
    | error e =>
      simp only [hd1] at h
      cases h
    | ok dp1 =>
      obtain ⟨d1, p1⟩ := dp1
      simp only [hd1] at h
      cases hd2 : umi_bioo_report u2 with
      | error e =>
        simp only [hd2] at h
        cases h
      | ok dp2 =>
        obtain ⟨d2, p2⟩ := dp2
        simp only [hd2] at h
        by_cases herr : (1 : Int) ≤ d1 ∨ (1 : Int) ≤ d2
        · rw [if_pos herr] at h
          left
          repeat' split at h
          all_goals simp_all
          all_goals (obtain ⟨rfl⟩ := h; rfl)
        · rw [if_neg herr] at h
          simp only [Except.ok.injEq] at h
          push_neg at herr
          have h1z : d1 = 0 := le_antisymm (by omega) (umi_report_dist_nonneg hd1)
          have h2z : d2 = 0 := le_antisymm (by omega) (umi_report_dist_nonneg hd2)
          subst h1z h2z
          right
          exact ⟨pyJoin [','] [u1, u2], by rw [← h], u1, u2, p1, p2, rfl, hd1, hd2⟩

theorem processLocLoop_partition_mem (correct : Bool) :
    ∀ (gs : List (PyStr × ReadGroup)) (st stF : LocSt),
    processLocLoop true correct st gs = .ok stF →
    ∀ x, x ∈ (stF.partition.map Prod.snd).flatten →
      x ∈ (st.partition.map Prod.snd).flatten ∨
      ∃ rg, (x, rg) ∈ gs ∧ ∃ u1 u2 p1 p2, groupUmis rg = .ok (u1, u2)
        ∧ umi_bioo_report u1 = .ok (0, p1) ∧ umi_bioo_report u2 = .ok (0, p2) := by
  intro gs
  induction gs with
  | nil =>
    intro st stF h x hx
    simp only [processLocLoop] at h
    cases h
    exact Or.inl hx
  | cons g rest ih =>
    intro st stF h x hx
    obtain ⟨rid, rg⟩ := g
    simp only [processLocLoop, Except.bind, bind] at h
    cases h1 : process_one_read_group true correct st rid rg with
    | error e =>
      simp only [h1] at h
      cases h
    | ok st1 =>
      simp only [h1] at h
      rcases ih st1 stF h x hx with hin | hnew
      · rcases process_one_partition_shape correct st rid rg st1 h1 with hsame | ⟨key, hkey, hcln⟩
        · rw [hsame] at hin
          exact Or.inl hin
        · rw [hkey] at hin
          rcases mem_flatten_bucketDictAppend key st.partition hin with ha | hb
          · exact Or.inl ha
          · subst hb
            exact Or.inr ⟨rg, List.mem_cons_self _ _, hcln⟩
      · obtain ⟨rg2, hmem, hcln⟩ := hnew
        exact Or.inr ⟨rg2, List.mem_cons_of_mem _ hmem, hcln⟩

/-- C7 (confirmed): with UMI-error rejection enabled, a ReadGroup whose UMI
pair has nonzero distance on either mate is recorded and counted in the
per-distance rejection histogram at the larger of the two distances while the
partition is left untouched (first conjunct, `st.partition` unchanged in the
result), and every ReadGroupId inside any DupGroup returned by
process_location_pe_bioo_1nt belongs to a group whose two UMIs both sit at
distance 0 from the known set, so error groups never enter a DupGroup
(second conjunct). -/
theorem reject_excludes_umi_error_groups :
    (∀ (correct : Bool) (st : LocSt) (rid : PyStr) (rg : ReadGroup)
        (umi1 umi2 nm : PyStr) (d1 d2 : Int) (p1 p2 : List PyStr)
        (rdb1 rdb2 rdb3 : PyDict Int),
      groupUmis rg = .ok (umi1, umi2) →
      umi_bioo_report umi1 = .ok (d1, p1) →
      umi_bioo_report umi2 = .ok (d2, p2) →
      (1 ≤ d1 ∨ 1 ≤ d2) →
      ReadGroup.nameOf rg = .ok nm →
      reportAdd st.report_db
        (LOG_NUM_READ_GROUPS_WITH_UMI_ERROR_DIST
          ++ pyStrOfInt (if d1 > d2 then d1 else d2)) 1 = .ok rdb1 →
      reportAdd rdb1 LOG_NUM_READ_GROUPS_WITH_UMI_ERROR 1 = .ok rdb2 →
      reportAdd rdb2
        (LOG_NUM_READ_GROUPS_REJECTED_DUE_TO_UMI_ERROR_DIST
          ++ pyStrOfInt (if d1 > d2 then d1 else d2)) 1 = .ok rdb3 →
      ∃ tags1 tags2, process_one_read_group true correct st rid rg
        = .ok ⟨rdb3, dictPut st.umi_error_db nm (tags1, tags2), st.partition⟩)
    ∧ (∀ (correct : Bool) (report_db : PyDict Int) (udb : PyDict (PyStr × PyStr))
        (gs : List (PyStr × ReadGroup)) (stF : LocSt) (out : List (List PyStr)),
      process_location_pe_bioo_1nt true correct report_db udb gs = .ok (stF, out) →
      ∀ dg ∈ out, ∀ x ∈ dg, ∃ rg, (x, rg) ∈ gs ∧ ∃ u1 u2 p1 p2,
        groupUmis rg = .ok (u1, u2) ∧ umi_bioo_report u1 = .ok (0, p1)
        ∧ umi_bioo_report u2 = .ok (0, p2)) := by
  constructor
  · intro correct st rid rg umi1 umi2 nm d1 d2 p1 p2 rdb1 rdb2 rdb3
      hg h1 h2 herr hname hr1 hr2 hr3
    simp only [process_one_read_group, hg, h1, h2, Except.bind, bind, pure, Except.pure]
    rw [if_pos herr]
    by_cases hj : d1 ≤ 1 ∧ (p1.length : Int) ≤ 1 ∧ d2 ≤ 1 ∧ (p2.length : Int) ≤ 1
    · rw [if_pos hj]
      by_cases hm1 : d1 = 1 ∧ (p1.length : Int) = 1
      · obtain ⟨c1, rfl⟩ : ∃ c, p1 = [c] := by
          rcases List.length_eq_one.mp (by exact_mod_cast hm1.2) with ⟨a, ha⟩
          exact ⟨a, ha⟩
        rw [if_pos hm1]
        by_cases hm2 : d2 = 1 ∧ (p2.length : Int) = 1
        · obtain ⟨c2, rfl⟩ : ∃ c, p2 = [c] := by
            rcases List.length_eq_one.mp (by exact_mod_cast hm2.2) with ⟨a, ha⟩
            exact ⟨a, ha⟩
          simp only [if_pos hm2]
          refine ⟨SAM_TAG_READ1_HAMMING_DIST_UMI ++ pyStrOfInt d1
              ++ DELIM_SAM_FIELD :: (SAM_TAG_READ1_NUM_CLOSEST_UMIS
                ++ pyStrOfInt (([c1] : List PyStr).length : Int))
              ++ DELIM_SAM_FIELD :: (SAM_TAG_READ1_CLOSEST_UMI ++ c1),
            SAM_TAG_READ2_HAMMING_DIST_UMI ++ pyStrOfInt d2
              ++ DELIM_SAM_FIELD :: (SAM_TAG_READ2_NUM_CLOSEST_UMIS
                ++ pyStrOfInt (([c2] : List PyStr).length : Int))
              ++ DELIM_SAM_FIELD :: (SAM_TAG_READ2_CLOSEST_UMI ++ c2), ?_⟩
          simp only [pyIndex, List.getElem?_cons_zero, hname, hr1, hr2, hr3,
            Except.bind, bind, pure, Except.pure]
          norm_num
        · simp only [if_neg hm2]
          refine ⟨SAM_TAG_READ1_HAMMING_DIST_UMI ++ pyStrOfInt d1
              ++ DELIM_SAM_FIELD :: (SAM_TAG_READ1_NUM_CLOSEST_UMIS
                ++ pyStrOfInt (([c1] : List PyStr).length : Int))
              ++ DELIM_SAM_FIELD :: (SAM_TAG_READ1_CLOSEST_UMI ++ c1),
            SAM_TAG_READ2_HAMMING_DIST_UMI ++ pyStrOfInt d2
              ++ DELIM_SAM_FIELD :: (SAM_TAG_READ2_NUM_CLOSEST_UMIS
                ++ pyStrOfInt (p2.length : Int)), ?_⟩
          simp only [pyIndex, List.getElem?_cons_zero, hname, hr1, hr2, hr3,
            Except.bind, bind, pure, Except.pure]
          norm_num
      · rw [if_neg hm1]
        by_cases hm2 : d2 = 1 ∧ (p2.length : Int) = 1
        · obtain ⟨c2, rfl⟩ : ∃ c, p2 = [c] := by
            rcases List.length_eq_one.mp (by exact_mod_cast hm2.2) with ⟨a, ha⟩
            exact ⟨a, ha⟩
          simp only [if_pos hm2]
          refine ⟨SAM_TAG_READ1_HAMMING_DIST_UMI ++ pyStrOfInt d1
              ++ DELIM_SAM_FIELD :: (SAM_TAG_READ1_NUM_CLOSEST_UMIS
                ++ pyStrOfInt (p1.length : Int)),
            SAM_TAG_READ2_HAMMING_DIST_UMI ++ pyStrOfInt d2
              ++ DELIM_SAM_FIELD :: (SAM_TAG_READ2_NUM_CLOSEST_UMIS
                ++ pyStrOfInt (([c2] : List PyStr).length : Int))
              ++ DELIM_SAM_FIELD :: (SAM_TAG_READ2_CLOSEST_UMI ++ c2), ?_⟩
          simp only [pyIndex, List.getElem?_cons_zero, hname, hr1, hr2, hr3,
            Except.bind, bind, pure, Except.pure]
          norm_num
        · simp only [if_neg hm2]
          refine ⟨SAM_TAG_READ1_HAMMING_DIST_UMI ++ pyStrOfInt d1
              ++ DELIM_SAM_FIELD :: (SAM_TAG_READ1_NUM_CLOSEST_UMIS
                ++ pyStrOfInt (p1.length : Int)),
            SAM_TAG_READ2_HAMMING_DIST_UMI ++ pyStrOfInt d2
              ++ DELIM_SAM_FIELD :: (SAM_TAG_READ2_NUM_CLOSEST_UMIS
                ++ pyStrOfInt (p2.length : Int)), ?_⟩
          simp only [hname, hr1, hr2, hr3, Except.bind, bind, pure, Except.pure]
          norm_num
    · rw [if_neg hj]
      refine ⟨SAM_TAG_READ1_HAMMING_DIST_UMI ++ pyStrOfInt d1
          ++ DELIM_SAM_FIELD :: (SAM_TAG_READ1_NUM_CLOSEST_UMIS
            ++ pyStrOfInt (p1.length : Int)),
        SAM_TAG_READ2_HAMMING_DIST_UMI ++ pyStrOfInt d2
          ++ DELIM_SAM_FIELD :: (SAM_TAG_READ2_NUM_CLOSEST_UMIS
            ++ pyStrOfInt (p2.length : Int)), ?_⟩
      simp only [hname, hr1, hr2, hr3, Except.bind, bind, pure, Except.pure]
      norm_num
  · intro correct report_db udb gs stF out hploc dg hdg x hx
    simp only [process_location_pe_bioo_1nt, Except.bind, bind, pure, Except.pure] at hploc
    split at hploc
    · cases hploc
    · rename_i stmid hloop
      split at hploc
      · cases hploc
      · rename_i r1 hra1
        split at hploc
        · cases hploc
        · rename_i r2 hra2
          simp only [Except.ok.injEq, Prod.mk.injEq] at hploc
          obtain ⟨hstF, hout⟩ := hploc
          rw [← hout] at hdg
          have hdgmem : dg ∈ stmid.partition.map Prod.snd := (List.mem_filter.mp hdg).1
          have hxflat : x ∈ (stmid.partition.map Prod.snd).flatten :=
            List.mem_flatten.mpr ⟨dg, hdgmem, hx⟩
          rcases processLocLoop_partition_mem correct gs ⟨report_db, udb, []⟩ stmid
              hloop x hxflat with habs | hgood
          · simp at habs
          · exact hgood

set_option maxRecDepth 400000 in
theorem reject_excludes_umi_error_groups_witness :
    (∃ tags1 tags2, process_one_read_group true true
      ⟨[("num_read_groups_with_umi_error_dist2".toList, 0),
        ("num_read_groups_with_umi_error".toList, 0),
        ("num_read_groups_rejected_due_to_umi_error_dist2".toList, 0)], [], []⟩
      "0000000003".toList
      [⟨"c-AACGCCAA^TTGGTACG;1^2".toList, 0, "chr1".toList, 100, "60".toList, "8M".toList⟩]
      = .ok ⟨[("num_read_groups_with_umi_error_dist2".toList, 1),
          ("num_read_groups_with_umi_error".toList, 1),
          ("num_read_groups_rejected_due_to_umi_error_dist2".toList, 1)],
        dictPut [] "c-AACGCCAA^TTGGTACG;1^2".toList (tags1, tags2), []⟩)
    ∧ (∃ rg, ("0000000001".toList, rg) ∈
        [("0000000001".toList,
          ([⟨"a-AAGGTACG^CACACACA;1^2".toList, 0, "chr1".toList, 100, "60".toList,
            "8M".toList⟩] : ReadGroup)),
         ("0000000002".toList,
          [⟨"b-AAGGTACG^CACACACA;1^2".toList, 0, "chr1".toList, 100, "60".toList,
            "8M".toList⟩]),
         ("0000000003".toList,
          [⟨"c-AACGCCAA^TTGGTACG;1^2".toList, 0, "chr1".toList, 100, "60".toList,
            "8M".toList⟩])] ∧
      ∃ u1 u2 p1 p2, groupUmis rg = .ok (u1, u2)
        ∧ umi_bioo_report u1 = .ok (0, p1) ∧ umi_bioo_report u2 = .ok (0, p2)) := by
  constructor
  · obtain ⟨t1, t2, hres⟩ := reject_excludes_umi_error_groups.1 true
      ⟨[("num_read_groups_with_umi_error_dist2".toList, 0),
        ("num_read_groups_with_umi_error".toList, 0),
        ("num_read_groups_rejected_due_to_umi_error_dist2".toList, 0)], [], []⟩
      "0000000003".toList
      [⟨"c-AACGCCAA^TTGGTACG;1^2".toList, 0, "chr1".toList, 100, "60".toList, "8M".toList⟩]
      "AACGCCAA".toList "TTGGTACG".toList "c-AACGCCAA^TTGGTACG;1^2".toList
      1 2 ["AACGCCAT".toList] ["AAGGTACG".toList, "TAGGTTCG".toList, "TTCGTTCG".toList]
      [("num_read_groups_with_umi_error_dist2".toList, 1),
       ("num_read_groups_with_umi_error".toList, 0),
       ("num_read_groups_rejected_due_to_umi_error_dist2".toList, 0)]
      [("num_read_groups_with_umi_error_dist2".toList, 1),
       ("num_read_groups_with_umi_error".toList, 1),
       ("num_read_groups_rejected_due_to_umi_error_dist2".toList, 0)]
      [("num_read_groups_with_umi_error_dist2".toList, 1),
       ("num_read_groups_with_umi_error".toList, 1),
       ("num_read_groups_rejected_due_to_umi_error_dist2".toList, 1)]
      rfl rfl rfl (Or.inl (by norm_num)) rfl rfl rfl rfl
    exact ⟨t1, t2, hres⟩
  · exact reject_excludes_umi_error_groups.2 false
      [("num_unique_umi_and_location_combinations".toList, 0),
       ("num_dup_groups".toList, 0),
       ("num_read_groups_with_umi_error_dist2".toList, 0),
       ("num_read_groups_with_umi_error".toList, 0),
       ("num_read_groups_rejected_due_to_umi_error_dist2".toList, 0)]
      []
      [("0000000001".toList,
        [⟨"a-AAGGTACG^CACACACA;1^2".toList, 0, "chr1".toList, 100, "60".toList,
          "8M".toList⟩]),
       ("0000000002".toList,
        [⟨"b-AAGGTACG^CACACACA;1^2".toList, 0, "chr1".toList, 100, "60".toList,
          "8M".toList⟩]),
       ("0000000003".toList,
        [⟨"c-AACGCCAA^TTGGTACG;1^2".toList, 0, "chr1".toList, 100, "60".toList,
          "8M".toList⟩])]
      ⟨[("num_unique_umi_and_location_combinations".toList, 1),
        ("num_dup_groups".toList, 1),
        ("num_read_groups_with_umi_error_dist2".toList, 1),
        ("num_read_groups_with_umi_error".toList, 1),
        ("num_read_groups_rejected_due_to_umi_error_dist2".toList, 1)],
       [("c-AACGCCAA^TTGGTACG;1^2".toList,
         ("d1:i:1\tn1:i:1".toList, "d2:i:2\tn2:i:3".toList))],
       [("AAGGTACG,CACACACA".toList,
         ["0000000001".toList, "0000000002".toList])]⟩
      [["0000000001".toList, "0000000002".toList]]
      rfl
      ["0000000001".toList, "0000000002".toList] (by decide)
      "0000000001".toList (by decide)

/-! ## Reconciliation pass (`write_output_files_pe`, dedup.py lines 593-705) -/

/-- The four output streams (deduplicated, flagged, duplicates-only,
umi-error-rejects), each as the list of written alignment lines. -/
structure OutFiles where
  dedupped : List PyStr
  flagged : List PyStr
  dup_only : List PyStr
  rejects : List PyStr
  deriving DecidableEq, Repr

/-- Python tuple indexing `t[i]` on the 2-tuple stored in the UmiErrorRecord
store: IndexError past the second component. -/
def pairIndex (t : PyStr × PyStr) : Nat → Except PyErr PyStr
  | 0 => .ok t.1
  | 1 => .ok t.2
  | _ => .error .indexError

/-- Lines 671-678 of dedup.py: rebuild each line of the group as
`'\t'.join((line.rstrip(), umi_error_db[qname][i])) + '\n'`, walking the
group with `enumerate`. -/
def applyTags (tags : PyStr × PyStr) : Nat → List PyStr → Except PyErr (List PyStr)
  | _, [] => .ok []
  | i, line :: rest => do
      let t ← pairIndex tags i
      let tail ← applyTags tags (i + 1) rest
      return (pyRstrip line ++ DELIM_SAM_FIELD :: t ++ ['\n']) :: tail

/-- Lines 669-678 of dedup.py: tag application happens only when the qname has
a recorded UMI error. -/
def tagStep (umi_error_db : PyDict (PyStr × PyStr)) (qname : PyStr)
    (aln_lines : List PyStr) : Except PyErr (List PyStr) :=
  match dictGet umi_error_db qname with
  | some tags => applyTags tags 0 aln_lines
  | none => .ok aln_lines

/-- Lines 685-689 of dedup.py: split off the first two tab fields, OR the FLAG
field with SAM_FORMAT_FLAG_DUPLICATE (0x400) and join the line back. -/
def flagLine (line : PyStr) : Except PyErr PyStr := do
  let parts := pySplitMax DELIM_SAM_FIELD 2 line
  let p1 ← pyIndex parts 1
  let n ← pyInt p1
  let parts2 := parts.set 1 (pyStrOfInt (Int.lor n SAM_FORMAT_FLAG_DUPLICATE))
  return pyJoin [DELIM_SAM_FIELD] parts2

/-- The `for line in aln_lines` loop of the duplicate branch. -/
def flagLines : List PyStr → Except PyErr (List PyStr)
  | [] => .ok []
  | l :: rest => do
      let f ← flagLine l
      let tail ← flagLines rest
      return f :: tail

/-- Lines 666-700 of dedup.py: process one same-qname group of alignment
lines.  `fp_get_dup` is the losers-store lookup passed in by the caller; its
result is used only for Python truthiness (`if fp_get_dup(prev_qname):`), so a
missing key or an empty stored list both mean "not a duplicate". -/
def processGroup (fp_get_dup : PyStr → Option (List PyStr))
    (umi_error_db : PyDict (PyStr × PyStr)) (reject_umi_errors : Bool)
    (prev_qname : PyStr) (aln_lines : List PyStr) (out : OutFiles) :
    Except PyErr OutFiles := do
  let aln_lines2 ← tagStep umi_error_db prev_qname aln_lines
  if ((fp_get_dup prev_qname).getD []).isEmpty = false then do
    let flagged_lines ← flagLines aln_lines2
    return ⟨out.dedupped, out.flagged ++ flagged_lines,
      out.dup_only ++ flagged_lines, out.rejects⟩
  else if (dictGet umi_error_db prev_qname).isSome ∧ reject_umi_errors then
    return ⟨out.dedupped, out.flagged, out.dup_only, out.rejects ++ aln_lines2⟩
  else
    return ⟨out.dedupped ++ aln_lines2, out.flagged ++ aln_lines2,
      out.dup_only, out.rejects⟩

/-- Lines 648-664 of dedup.py: inner loop collecting all consecutive lines
with the same qname.  Returns the collected group, `some (qname, held_line)`
when a new qname broke the loop (the freshly read line is carried into the
next round) or `none` at EOF, and the unread remainder of the stream. -/
def write_aln_inner (prev_qname : PyStr) (acc : List PyStr) :
    List PyStr → Except PyErr (List PyStr × Option (PyStr × PyStr) × List PyStr)
  | [] => .ok (acc, none, [])
  | line :: rest => do
      let qname ← pyIndex (pySplitMax DELIM_SAM_FIELD 1 line) 0
      if prev_qname ≠ [] ∧ prev_qname ≠ qname then
        return (acc, some (qname, line), rest)
      else
        write_aln_inner qname (acc ++ [line]) rest

/-- The outer `while remaining_lines` loop of lines 646-705, with fuel for
structural recursion; `none` means the fuel ran out, which never happens from
`write_output_files_pe` (fuel exceeds the stream length). -/
def write_aln_loop (fp_get_dup : PyStr → Option (List PyStr))
    (umi_error_db : PyDict (PyStr × PyStr)) (reject_umi_errors : Bool) :
    Nat → PyStr → List PyStr → List PyStr → OutFiles →
    Option (Except PyErr OutFiles)
  | 0, _, _, _, _ => none
  | fuel + 1, prev_qname, aln_lines, stream, out =>
      match write_aln_inner prev_qname aln_lines stream with
      | .error e => some (.error e)
      | .ok (group, next, rest) =>
          match processGroup fp_get_dup umi_error_db reject_umi_errors
              prev_qname group out with
          | .error e => some (.error e)
          | .ok out1 =>
              match next with
              | none => some (.ok out1)
              | some (q, held) =>
                  write_aln_loop fp_get_dup umi_error_db reject_umi_errors
                    fuel q [held] rest out1

/-- The alignment-line section of `write_output_files_pe` (dedup.py lines
640-705): the first alignment line seeds `prev_qname` and `aln_lines` (lines
641-642), then the grouped stream is processed to the four streams. -/
def write_output_files_pe (fp_get_dup : PyStr → Option (List PyStr))
    (umi_error_db : PyDict (PyStr × PyStr)) (reject_umi_errors : Bool)
    (first_line : PyStr) (stream : List PyStr) : Option (Except PyErr OutFiles) :=
  match pyIndex (pySplitMax DELIM_SAM_FIELD 1 first_line) 0 with
  | .error e => some (.error e)
  | .ok q =>
      write_aln_loop fp_get_dup umi_error_db reject_umi_errors
        (stream.length + 1) q [first_line] stream ⟨[], [], [], []⟩

theorem pySplitMaxAux_sep (sep : Char) (m : Nat) (rest : List Char) :
    ∀ (q0 : List Char) (acc : List Char), sep ∉ q0 →
    pySplitMaxAux sep (m + 1) (q0 ++ sep :: rest) acc
      = (acc.reverse ++ q0) :: pySplitMaxAux sep m rest [] := by
  intro q0
  induction q0 with
  | nil =>
    intro acc _
    simp only [List.nil_append, pySplitMaxAux, if_pos rfl, if_true, List.append_nil]
  | cons c q0' ih =>
    intro acc hsep
    have hc : ¬(c = sep) := fun h => hsep (by simp [h])
    simp only [List.cons_append, pySplitMaxAux, hc, if_false, ite_false, List.append_eq]
    rw [ih (c :: acc) (fun hm => hsep (by simp [hm]))]
    simp

theorem pySplitMaxAux_zero (sep : Char) (rest acc : List Char) :
    pySplitMaxAux sep 0 rest acc = [acc.reverse ++ rest] := by
  cases rest with
  | nil => simp [pySplitMaxAux]
  | cons c r => simp [pySplitMaxAux]

theorem flagLine_formula (q0 f r : PyStr) (n : Int)
    (hq : DELIM_SAM_FIELD ∉ q0) (hf : DELIM_SAM_FIELD ∉ f)
    (hn : pyInt f = .ok n) :
    flagLine (q0 ++ DELIM_SAM_FIELD :: (f ++ DELIM_SAM_FIELD :: r))
      = .ok (q0 ++ DELIM_SAM_FIELD :: (pyStrOfInt (Int.lor n SAM_FORMAT_FLAG_DUPLICATE)
          ++ DELIM_SAM_FIELD :: r)) := by
  have hsplit : pySplitMax DELIM_SAM_FIELD 2 (q0 ++ DELIM_SAM_FIELD :: (f ++ DELIM_SAM_FIELD :: r))
      = [q0, f, r] := by
    unfold pySplitMax
    rw [pySplitMaxAux_sep DELIM_SAM_FIELD 1 (f ++ DELIM_SAM_FIELD :: r) q0 [] hq,
      pySplitMaxAux_sep DELIM_SAM_FIELD 0 r f [] hf, pySplitMaxAux_zero]
    simp
  simp only [flagLine, hsplit, pyIndex, Except.bind, bind, pure, Except.pure,
    List.getElem?_cons_zero, List.getElem?_cons_succ, hn, List.set]
  simp [pyJoin, List.intersperse]

/-- C5 (corrected): routing of a same-qname group across the four output
streams.  UMI-error tags are appended to the group's lines first (`tagStep`),
in every branch; then (a) a qname whose losers-store lookup is truthy has
every line's FLAG OR-ed with 0x400 and goes to the flagged and duplicates-only
streams, (b) otherwise a qname with a recorded UMI error is routed to the
umi-error-rejects stream when rejection is enabled, and (c) otherwise the
group goes to both the deduplicated and flagged streams — as the tagged lines
`g2`, not the input lines, refuting "written unmodified"; (d) gives the
explicit 0x400 flag update on a well-formed SAM line. -/
theorem write_output_routing :
    (∀ (fp : PyStr → Option (List PyStr)) (udb : PyDict (PyStr × PyStr))
        (reject : Bool) (q : PyStr) (g g2 fl : List PyStr) (out : OutFiles)
        (dupv : List PyStr),
      tagStep udb q g = .ok g2 → fp q = some dupv → dupv ≠ [] →
      flagLines g2 = .ok fl →
      processGroup fp udb reject q g out
        = .ok ⟨out.dedupped, out.flagged ++ fl, out.dup_only ++ fl, out.rejects⟩)
    ∧ (∀ (fp : PyStr → Option (List PyStr)) (udb : PyDict (PyStr × PyStr))
        (q : PyStr) (g g2 : List PyStr) (out : OutFiles) (tags : PyStr × PyStr),
      dictGet udb q = some tags → applyTags tags 0 g = .ok g2 →
      ((fp q).getD []).isEmpty = true →
      processGroup fp udb true q g out
        = .ok ⟨out.dedupped, out.flagged, out.dup_only, out.rejects ++ g2⟩)
    ∧ (∀ (fp : PyStr → Option (List PyStr)) (udb : PyDict (PyStr × PyStr))
        (reject : Bool) (q : PyStr) (g g2 : List PyStr) (out : OutFiles),
      tagStep udb q g = .ok g2 →
      ((fp q).getD []).isEmpty = true →
      ¬((dictGet udb q).isSome = true ∧ reject = true) →
      processGroup fp udb reject q g out
        = .ok ⟨out.dedupped ++ g2, out.flagged ++ g2, out.dup_only, out.rejects⟩)
    ∧ (∀ (q0 f r : PyStr) (n : Int),
      DELIM_SAM_FIELD ∉ q0 → DELIM_SAM_FIELD ∉ f → pyInt f = .ok n →
      flagLine (q0 ++ DELIM_SAM_FIELD :: (f ++ DELIM_SAM_FIELD :: r))
        = .ok (q0 ++ DELIM_SAM_FIELD ::
            (pyStrOfInt (Int.lor n SAM_FORMAT_FLAG_DUPLICATE)
              ++ DELIM_SAM_FIELD :: r))) := by
  refine ⟨?_, ?_, ?_, ?_⟩
  · intro fp udb reject q g g2 fl out dupv htag hdup hne hfl
    have htruth : ((fp q).getD []).isEmpty = false := by
      rw [hdup]
      simpa [List.isEmpty_iff] using hne
    simp only [processGroup, htag, htruth, hfl, Except.bind, bind, pure, Except.pure]
    norm_num
  · intro fp udb q g g2 out tags htags happ hfalsy
    simp only [processGroup, tagStep, htags, happ, hfalsy, Except.bind, bind, pure,
      Except.pure]
    rw [if_neg (by simp [hfalsy])]
    rw [if_pos ⟨by simp [htags], trivial⟩]
  · intro fp udb reject q g g2 out htag hfalsy hcond
    simp only [processGroup, htag, Except.bind, bind, pure, Except.pure]
    rw [if_neg (by simp [hfalsy]), if_neg hcond]
  · intro q0 f r n hq hf hn
    exact flagLine_formula q0 f r n hq hf hn

/-- A group with a recorded UMI error and no duplicate flag is written to the
deduplicated and flagged streams with the UMI-error tags appended, so the line
written is not the input line: the claim's "written unmodified" is false. -/
theorem write_output_unmodified_false :
    processGroup (fun _ => none)
      [("q1".toList, ("d1:i:1\tn1:i:1".toList, "d2:i:0\tn2:i:1".toList))] false
      "q1".toList ["q1\t0\tchr1\t100\t60\t8M\n".toList] ⟨[], [], [], []⟩
      = .ok ⟨["q1\t0\tchr1\t100\t60\t8M\td1:i:1\tn1:i:1\n".toList],
          ["q1\t0\tchr1\t100\t60\t8M\td1:i:1\tn1:i:1\n".toList], [], []⟩
    ∧ "q1\t0\tchr1\t100\t60\t8M\td1:i:1\tn1:i:1\n".toList
        ≠ "q1\t0\tchr1\t100\t60\t8M\n".toList :=
  ⟨rfl, by decide⟩

theorem write_output_routing_witness :
    (processGroup (fun q => if q = "q2".toList then some [[]] else none) [] false
      "q2".toList
      ["q2\t0\tchr1\t100\t60\t8M\n".toList, "q2\t16\tchr1\t200\t60\t8M\n".toList]
      ⟨[], [], [], []⟩
      = .ok ⟨[], [] ++ ["q2\t1024\tchr1\t100\t60\t8M\n".toList,
          "q2\t1040\tchr1\t200\t60\t8M\n".toList],
        [] ++ ["q2\t1024\tchr1\t100\t60\t8M\n".toList,
          "q2\t1040\tchr1\t200\t60\t8M\n".toList], []⟩)
    ∧ (processGroup (fun _ => none)
      [("q1".toList, ("d1:i:1\tn1:i:1".toList, "d2:i:0\tn2:i:1".toList))] true
      "q1".toList ["q1\t0\tchr1\t100\t60\t8M\n".toList] ⟨[], [], [], []⟩
      = .ok ⟨[], [], [],
        [] ++ ["q1\t0\tchr1\t100\t60\t8M\td1:i:1\tn1:i:1\n".toList]⟩)
    ∧ (processGroup (fun _ => none) [] false "q3".toList
      ["q3\t0\tchr1\t100\t60\t8M\n".toList] ⟨[], [], [], []⟩
      = .ok ⟨[] ++ ["q3\t0\tchr1\t100\t60\t8M\n".toList],
        [] ++ ["q3\t0\tchr1\t100\t60\t8M\n".toList], [], []⟩)
    ∧ (flagLine ("q1".toList ++ DELIM_SAM_FIELD :: ("16".toList
        ++ DELIM_SAM_FIELD :: "chr1\t200\t60\t8M\n".toList))
      = .ok ("q1".toList ++ DELIM_SAM_FIELD ::
          (pyStrOfInt (Int.lor 16 SAM_FORMAT_FLAG_DUPLICATE)
            ++ DELIM_SAM_FIELD :: "chr1\t200\t60\t8M\n".toList))) := by
  refine ⟨?_, ?_, ?_, ?_⟩
  · exact write_output_routing.1 (fun q => if q = "q2".toList then some [[]] else none)
      [] false "q2".toList
      ["q2\t0\tchr1\t100\t60\t8M\n".toList, "q2\t16\tchr1\t200\t60\t8M\n".toList]
      ["q2\t0\tchr1\t100\t60\t8M\n".toList, "q2\t16\tchr1\t200\t60\t8M\n".toList]
      ["q2\t1024\tchr1\t100\t60\t8M\n".toList, "q2\t1040\tchr1\t200\t60\t8M\n".toList]
      ⟨[], [], [], []⟩ [[]] rfl rfl (by decide) rfl
  · exact write_output_routing.2.1 (fun _ => none)
      [("q1".toList, ("d1:i:1\tn1:i:1".toList, "d2:i:0\tn2:i:1".toList))]
      "q1".toList ["q1\t0\tchr1\t100\t60\t8M\n".toList]
      ["q1\t0\tchr1\t100\t60\t8M\td1:i:1\tn1:i:1\n".toList]
      ⟨[], [], [], []⟩ ("d1:i:1\tn1:i:1".toList, "d2:i:0\tn2:i:1".toList)
      rfl rfl rfl
  · exact write_output_routing.2.2.1 (fun _ => none) [] false "q3".toList
      ["q3\t0\tchr1\t100\t60\t8M\n".toList]
      ["q3\t0\tchr1\t100\t60\t8M\n".toList] ⟨[], [], [], []⟩
      rfl rfl (by decide)
  · exact write_output_routing.2.2.2 "q1".toList "16".toList
      "chr1\t200\t60\t8M\n".toList 16 (by decide) (by decide) rfl

/-- C10 (confirmed): tag application indexes the stored 2-tuple with the line
index, so any qname group of three or more alignment lines whose qname has a
recorded UMI error raises IndexError: in `applyTags` itself, through
`processGroup`, and through the whole alignment-line pass, which therefore
produces an error instead of output. -/
theorem umi_error_tags_two_line_limit :
    (∀ (tags : PyStr × PyStr) (l0 l1 l2 : PyStr) (rest : List PyStr),
      applyTags tags 0 (l0 :: l1 :: l2 :: rest) = .error .indexError)
    ∧ (∀ (fp : PyStr → Option (List PyStr)) (udb : PyDict (PyStr × PyStr))
        (reject : Bool) (q l0 l1 l2 : PyStr) (rest : List PyStr) (out : OutFiles)
        (tags : PyStr × PyStr),
      dictGet udb q = some tags →
      processGroup fp udb reject q (l0 :: l1 :: l2 :: rest) out
        = .error .indexError)
    ∧ (write_output_files_pe (fun _ => none)
        [("q1".toList, ("d1:i:1\tn1:i:1".toList, "d2:i:0\tn2:i:1".toList))] false
        "q1\t0\tchr1\t100\t60\t8M\n".toList
        ["q1\t16\tchr1\t200\t60\t8M\n".toList, "q1\t256\tchr1\t300\t60\t8M\n".toList]
        = some (.error .indexError)) := by
  refine ⟨fun tags l0 l1 l2 rest => rfl, ?_, rfl⟩
  intro fp udb reject q l0 l1 l2 rest out tags htags
  simp only [processGroup, tagStep, htags, Except.bind, bind]
  rw [show applyTags tags 0 (l0 :: l1 :: l2 :: rest) = .error .indexError from rfl]

theorem umi_error_tags_two_line_limit_witness :
    processGroup (fun _ => none)
      [("q1".toList, ("d1:i:1\tn1:i:1".toList, "d2:i:0\tn2:i:1".toList))] false
      "q1".toList
      ["q1\t0\tchr1\t100\t60\t8M\n".toList, "q1\t16\tchr1\t200\t60\t8M\n".toList,
        "q1\t256\tchr1\t300\t60\t8M\n".toList] ⟨[], [], [], []⟩
      = .error .indexError :=
  umi_error_tags_two_line_limit.2.1 (fun _ => none)
    [("q1".toList, ("d1:i:1\tn1:i:1".toList, "d2:i:0\tn2:i:1".toList))] false
    "q1".toList "q1\t0\tchr1\t100\t60\t8M\n".toList
    "q1\t16\tchr1\t200\t60\t8M\n".toList "q1\t256\tchr1\t300\t60\t8M\n".toList
    [] ⟨[], [], [], []⟩ ("d1:i:1\tn1:i:1".toList, "d2:i:0\tn2:i:1".toList) rfl
